import Mathlib

/-!
goroslib: topology queries of a node (`nodefuncs.go`)

A shallow embedding of the functions of `nodefuncs.go` (`GetNodes`, `GetMachines`,
`GetTopics`, `GetServices`, `PingNode`, `KillNode`, `GetNodeConns`), and theorems
about them.

Modelling conventions.

* A Go `string` is a Lean `String`; `len(s)` is the number of bytes of its UTF-8
  encoding and `s[0]` is the first of these bytes.
* A Go `error` is represented by its message (`GoError`); `nil` is `none`.
* `map[string]struct{}` is a set of strings: a list that holds every key once, in
  insertion order (`setAdd`). It is always an initialised map, as every one in the
  source is born from `make`.
* `map[string]*T` is an association list with one pair per key, in insertion order
  (`mapGet`, `mapSet`, `mapModify`). The order in which `range` walks a map is not
  fixed by Go; it is the field `rangeOrder` of `Env`.
* A Go function returning `(v, err)` returns an `Outcome`: `val = none` is the `nil`
  map or slice, `err = none` is the `nil` error, and `calls` is the sequence of
  remote calls issued, oldest first.
* The XML-RPC clients (`apimaster`, `apislave`), `urlToAddress`, `net.SplitHostPort`
  and the clock of package `time` are not part of `nodefuncs.go`; they are parameters
  (`ApiMasterClient`, `Env`).
-/

namespace Goroslib

/-! ## Data model -/

/-- The message of a Go `error`. -/
abbrev GoError := String

/-- A map from strings to `V`, one pair per key, in insertion order. -/
abbrev GoMap (V : Type) := List (String × V)

/-- Reading `m[key]`: the value and whether the key is present. -/
def mapGet {V : Type} : GoMap V → String → Option V
  | [], _ => none
  | (k, v) :: m, key => if k = key then some v else mapGet m key

/-- The assignment `m[key] = v`. -/
def mapSet {V : Type} : GoMap V → String → V → GoMap V
  | [], key, v => [(key, v)]
  | (k, w) :: m, key, v => if k = key then (k, v) :: m else (k, w) :: mapSet m key v

/-- An update through the pointer stored at `m[key]`. -/
def mapModify {V : Type} (m : GoMap V) (key : String) (f : V → V) : GoMap V :=
  match mapGet m key with
  | some v => mapSet m key (f v)
  | none => m

/-- The keys of a map. -/
def mapKeys {V : Type} (m : GoMap V) : List String := m.map Prod.fst

/-- The assignment `s[key] = struct{}{}` on a `map[string]struct{}`. -/
def setAdd (s : List String) (key : String) : List String :=
  if key ∈ s then s else s ++ [key]

/-- One entry of a system-state list: a topic or service name and its nodes. -/
structure SystemStateEntry where
  Name : String
  Nodes : List String
deriving DecidableEq, Repr

/-- The state of `ResponseGetSystemState`. -/
structure SystemState where
  PublishedTopics : List SystemStateEntry
  SubscribedTopics : List SystemStateEntry
  ProvidedServices : List SystemStateEntry
deriving DecidableEq, Repr

/-- One entry of `ResponseGetTopicTypes`; `Typ` is the field `Type`. -/
structure TopicType where
  Name : String
  Typ : String
deriving DecidableEq, Repr

/-- A value of type `interface{}` in a bus-info tuple: an `int`, a `string`, a `bool`,
or a value of any other dynamic type, of which only the `%v` text is kept. -/
inductive Value where
  | int (v : Int)
  | str (v : String)
  | bool (v : Bool)
  | other (text : String)
deriving DecidableEq, Repr

instance {ε α : Type} [DecidableEq ε] [DecidableEq α] : DecidableEq (Except ε α)
  | .ok a, .ok b => if h : a = b then isTrue (by rw [h]) else isFalse (by intro e; cases e; exact h rfl)
  | .error a, .error b =>
    if h : a = b then isTrue (by rw [h]) else isFalse (by intro e; cases e; exact h rfl)
  | .ok _, .error _ => isFalse (by intro e; cases e)
  | .error _, .ok _ => isFalse (by intro e; cases e)

/-- A remote call issued by the node. -/
inductive Call where
  | GetSystemState
  | GetTopicTypes
  | LookupNode (name : String)
  | LookupService (name : String)
  | GetPid (address : String) (caller : String)
  | Shutdown (address : String) (caller : String) (reason : String)
  | GetBusInfo (address : String) (caller : String)
deriving DecidableEq, Repr

/-- The answers of the master to the calls of `apimaster.Client`. -/
structure ApiMasterClient where
  GetSystemState : Except GoError SystemState
  GetTopicTypes : Except GoError (List TopicType)
  LookupNode : String → Except GoError String
  LookupService : String → Except GoError String

/-- The node: its master client and its absolute name. -/
structure Node where
  apiMasterClient : ApiMasterClient
  absoluteName : String

/-- What `nodefuncs.go` uses and does not define: the address resolver, the answers of
the peer at an address to the calls of `apislave.Client` (`GetPid`, `Shutdown` with a
reason, `GetBusInfo`; the second argument is the name of the caller), the order in
which `range` walks the keys of a map, `net.SplitHostPort`, and the clock: `clock k` is
reading number `k` of the monotonic clock of package `time`, in nanoseconds, which
never runs backwards. -/
structure Env where
  urlToAddress : String → Except GoError String
  GetPid : String → String → Except GoError Int
  Shutdown : String → String → String → Except GoError Unit
  GetBusInfo : String → String → Except GoError (List (List Value))
  rangeOrder : List String → List String
  rangeOrder_perm : ∀ ks, (rangeOrder ks).Perm ks
  SplitHostPort : String → Except GoError (String × String)
  clock : Nat → Int
  clock_mono : ∀ k, clock k ≤ clock (k + 1)

/-- The pair `(v, err)` a Go function returns, and the remote calls it issued. -/
structure Outcome (α : Type) where
  val : Option α
  err : Option GoError
  calls : List Call
deriving DecidableEq, Repr

/-- The pair `(d, err)` that `PingNode` returns, `d` in nanoseconds, and the remote
calls it issued. -/
structure PingOutcome where
  dur : Int
  err : Option GoError
  calls : List Call
deriving DecidableEq, Repr

/-- The `error` that `KillNode` returns, and the remote calls it issued. -/
structure KillOutcome where
  err : Option GoError
  calls : List Call
deriving DecidableEq, Repr

/-- InfoNode contains informations about a node. -/
structure InfoNode where
  PublishedTopics : List String
  SubscribedTopics : List String
  ProvidedServices : List String
  Address : String
deriving DecidableEq, Repr

/-- InfoTopic contains informations about a topic; `Typ` is the field `Type`. -/
structure InfoTopic where
  Typ : String
  Publishers : List String
  Subscribers : List String
deriving DecidableEq, Repr

/-- InfoService contains informations about a service. -/
structure InfoService where
  Providers : List String
  Address : String
deriving DecidableEq, Repr

/-- InfoConnection contains information about a connection. `Direction` is a byte. -/
structure InfoConnection where
  ID : Int
  To : String
  Direction : Nat
  Transport : String
  Topic : String
  Connected : Bool
deriving DecidableEq, Repr

/-! ## GetNodes -/

/-- The closure `initEntry` of `GetNodes`. -/
def initEntry (ret : GoMap InfoNode) (node : String) : GoMap InfoNode :=
  match mapGet ret node with
  | some _ => ret
  | none =>
    mapSet ret node
      { PublishedTopics := [], SubscribedTopics := [], ProvidedServices := [], Address := "" }

/-- The loop of `GetNodes` over `res.State.PublishedTopics`. -/
def nodesPublished (entries : List SystemStateEntry) (ret : GoMap InfoNode) : GoMap InfoNode :=
  entries.foldl (fun ret entry =>
    entry.Nodes.foldl (fun ret node =>
      mapModify (initEntry ret node) node
        (fun info => { info with PublishedTopics := setAdd info.PublishedTopics entry.Name }))
      ret) ret

/-- The loop of `GetNodes` over `res.State.SubscribedTopics`. -/
def nodesSubscribed (entries : List SystemStateEntry) (ret : GoMap InfoNode) : GoMap InfoNode :=
  entries.foldl (fun ret entry =>
    entry.Nodes.foldl (fun ret node =>
      mapModify (initEntry ret node) node
        (fun info => { info with SubscribedTopics := setAdd info.SubscribedTopics entry.Name }))
      ret) ret

/-- The loop of `GetNodes` over `res.State.ProvidedServices`. -/
def nodesProvided (entries : List SystemStateEntry) (ret : GoMap InfoNode) : GoMap InfoNode :=
  entries.foldl (fun ret entry =>
    entry.Nodes.foldl (fun ret node =>
      mapModify (initEntry ret node) node
        (fun info => { info with ProvidedServices := setAdd info.ProvidedServices entry.Name }))
      ret) ret

/-- The map `ret` of `GetNodes` when the three loops over the state are done. -/
def nodesOfState (st : SystemState) : GoMap InfoNode :=
  nodesProvided st.ProvidedServices
    (nodesSubscribed st.SubscribedTopics (nodesPublished st.PublishedTopics []))

/-- The loop of `GetNodes` over `ret`, walking the keys in the order `keys`. -/
def nodesLookup (env : Env) (n : Node) :
    List String → GoMap InfoNode → List Call → Outcome (GoMap InfoNode)
  | [], ret, calls => ⟨some ret, none, calls⟩
  | nodeName :: keys, ret, calls =>
    match n.apiMasterClient.LookupNode nodeName with
    | .error err => ⟨none, some ("lookupNode: " ++ err), calls ++ [Call.LookupNode nodeName]⟩
    | .ok url =>
      match env.urlToAddress url with
      | .error err => ⟨none, some err, calls ++ [Call.LookupNode nodeName]⟩
      | .ok address =>
        nodesLookup env n keys
          (mapModify ret nodeName (fun info => { info with Address := address }))
          (calls ++ [Call.LookupNode nodeName])

/-- GetNodes returns all the nodes connected to the master. -/
def GetNodes (env : Env) (n : Node) : Outcome (GoMap InfoNode) :=
  match n.apiMasterClient.GetSystemState with
  | .error err => ⟨none, some err, [Call.GetSystemState]⟩
  | .ok res =>
    let ret := nodesOfState res
    nodesLookup env n (env.rangeOrder (mapKeys ret)) ret [Call.GetSystemState]

/-! ## GetMachines -/

/-- The body of the loop of `GetMachines` at the key `key` of `nodes`: the host of the
address of the node is added to `ret`, unless `net.SplitHostPort` fails. -/
def machinesStep (env : Env) (nodes : GoMap InfoNode) (ret : List String) (key : String) :
    List String :=
  match mapGet nodes key with
  | none => ret
  | some info =>
    match env.SplitHostPort info.Address with
    | .error _ => ret
    | .ok (host, _) => setAdd ret host

/-- GetMachines returns all the machines connected to the master with a node. -/
def GetMachines (env : Env) (n : Node) : Outcome (List String) :=
  let r := GetNodes env n
  match r.err with
  | some err => ⟨none, some err, r.calls⟩
  | none =>
    let nodes := r.val.getD []
    ⟨some ((env.rangeOrder (mapKeys nodes)).foldl (machinesStep env nodes) []), none, r.calls⟩

/-! ## GetTopics -/

/-- The loop of `GetTopics` over `res2.Types`. -/
def topicsSeed (types : List TopicType) (ret : GoMap InfoTopic) : GoMap InfoTopic :=
  types.foldl (fun ret entry =>
    mapSet ret entry.Name { Typ := entry.Typ, Publishers := [], Subscribers := [] }) ret

/-- The loop of `GetTopics` over `res1.State.PublishedTopics`. -/
def topicsPublished (entries : List SystemStateEntry) (ret : GoMap InfoTopic) : GoMap InfoTopic :=
  entries.foldl (fun ret entry =>
    match mapGet ret entry.Name with
    | none => ret
    | some _ =>
      entry.Nodes.foldl (fun ret node =>
        mapModify ret entry.Name
          (fun info => { info with Publishers := setAdd info.Publishers node })) ret) ret

/-- The loop of `GetTopics` over `res1.State.SubscribedTopics`. -/
def topicsSubscribed (entries : List SystemStateEntry) (ret : GoMap InfoTopic) : GoMap InfoTopic :=
  entries.foldl (fun ret entry =>
    match mapGet ret entry.Name with
    | none => ret
    | some _ =>
      entry.Nodes.foldl (fun ret node =>
        mapModify ret entry.Name
          (fun info => { info with Subscribers := setAdd info.Subscribers node })) ret) ret

/-- GetTopics returns all the topics published by nodes connected to the master. -/
def GetTopics (n : Node) : Outcome (GoMap InfoTopic) :=
  match n.apiMasterClient.GetSystemState with
  | .error err => ⟨none, some ("getSystemState: " ++ err), [Call.GetSystemState]⟩
  | .ok res1 =>
    match n.apiMasterClient.GetTopicTypes with
    | .error err =>
      ⟨none, some ("getTopicTypes: " ++ err), [Call.GetSystemState, Call.GetTopicTypes]⟩
    | .ok res2 =>
      ⟨some (topicsSubscribed res1.SubscribedTopics
          (topicsPublished res1.PublishedTopics (topicsSeed res2 []))),
        none, [Call.GetSystemState, Call.GetTopicTypes]⟩

/-! ## GetServices -/

/-- The first two statements of the loop body of `GetServices`: the entry of the
service is created when absent, then the nodes of `entry` are added to its providers. -/
def servicesProviders (entry : SystemStateEntry) (ret : GoMap InfoService) : GoMap InfoService :=
  entry.Nodes.foldl (fun ret node =>
    mapModify ret entry.Name (fun info => { info with Providers := setAdd info.Providers node }))
    (match mapGet ret entry.Name with
      | some _ => ret
      | none => mapSet ret entry.Name { Providers := [], Address := "" })

/-- The loop of `GetServices` over `res1.State.ProvidedServices`. -/
def servicesLoop (env : Env) (n : Node) :
    List SystemStateEntry → GoMap InfoService → List Call → Outcome (GoMap InfoService)
  | [], ret, calls => ⟨some ret, none, calls⟩
  | entry :: entries, ret, calls =>
    let ret := servicesProviders entry ret
    match n.apiMasterClient.LookupService entry.Name with
    | .error err =>
      ⟨none, some ("lookupService: " ++ err), calls ++ [Call.LookupService entry.Name]⟩
    | .ok url =>
      match env.urlToAddress url with
      | .error err => ⟨none, some err, calls ++ [Call.LookupService entry.Name]⟩
      | .ok address =>
        servicesLoop env n entries
          (mapModify ret entry.Name (fun info => { info with Address := address }))
          (calls ++ [Call.LookupService entry.Name])

/-- GetServices returns all the services provided by nodes connected to the server. -/
def GetServices (env : Env) (n : Node) : Outcome (GoMap InfoService) :=
  match n.apiMasterClient.GetSystemState with
  | .error err => ⟨none, some ("getSystemState: " ++ err), [Call.GetSystemState]⟩
  | .ok res1 => servicesLoop env n res1.ProvidedServices [] [Call.GetSystemState]

/-! ## PingNode and KillNode -/

/-- PingNode sends a ping request to a given node, wait for the response and returns
the elapsed time. `time.Now()` is the reading 0 of the clock, and `time.Since(start)`
is the reading 1 minus `start`. -/
def PingNode (env : Env) (n : Node) (nodeName : String) : PingOutcome :=
  match n.apiMasterClient.LookupNode nodeName with
  | .error err => ⟨0, some err, [Call.LookupNode nodeName]⟩
  | .ok url =>
    match env.urlToAddress url with
    | .error err => ⟨0, some err, [Call.LookupNode nodeName]⟩
    | .ok address =>
      let start := env.clock 0
      match env.GetPid address n.absoluteName with
      | .error err =>
        ⟨0, some err, [Call.LookupNode nodeName, Call.GetPid address n.absoluteName]⟩
      | .ok _ =>
        ⟨env.clock 1 - start, none,
          [Call.LookupNode nodeName, Call.GetPid address n.absoluteName]⟩

/-- KillNode sends a kill request to a given node. -/
def KillNode (env : Env) (n : Node) (nodeName : String) : KillOutcome :=
  match n.apiMasterClient.LookupNode nodeName with
  | .error err => ⟨some err, [Call.LookupNode nodeName]⟩
  | .ok url =>
    match env.urlToAddress url with
    | .error err => ⟨some err, [Call.LookupNode nodeName]⟩
    | .ok address =>
      match env.Shutdown address n.absoluteName "" with
      | .error err =>
        ⟨some err, [Call.LookupNode nodeName, Call.Shutdown address n.absoluteName ""]⟩
      | .ok _ => ⟨none, [Call.LookupNode nodeName, Call.Shutdown address n.absoluteName ""]⟩

/-! ## GetNodeConns -/

/-- The bytes of a Go string: the UTF-8 encoding of its characters. -/
def goBytes (s : String) : List Nat :=
  s.data.flatMap (fun c => (String.utf8EncodeChar c).map UInt8.toNat)

/-- The text `%v` prints for a value. -/
def fmtValue : Value → String
  | .int v => toString v
  | .str v => v
  | .bool v => if v then "true" else "false"
  | .other text => text

/-- The error `fmt.Errorf("invalid entry: %v", i)`. -/
def invalidEntry (i : List Value) : GoError :=
  "invalid entry: [" ++ " ".intercalate (i.map fmtValue) ++ "]"

/-- The body of the loop of `GetNodeConns`: the record appended for the tuple `i`, or
the error returned. -/
def connOfEntry (i : List Value) : Except GoError InfoConnection :=
  if i.length < 6 then .error (invalidEntry i)
  else
    match (i[0]? : Option Value) with
    | some (.int id) =>
      match (i[1]? : Option Value) with
      | some (.str counterpart) =>
        match (i[2]? : Option Value) with
        | some (.str temp) =>
          if (goBytes temp).length ≠ 1 then .error (invalidEntry i)
          else
            match (i[3]? : Option Value) with
            | some (.str transport) =>
              match (i[4]? : Option Value) with
              | some (.str topic) =>
                match (i[5]? : Option Value) with
                | some (.bool connected) =>
                  .ok { ID := id, To := counterpart, Direction := (goBytes temp).headD 0,
                        Transport := transport, Topic := topic, Connected := connected }
                | _ => .error (invalidEntry i)
              | _ => .error (invalidEntry i)
            | _ => .error (invalidEntry i)
        | _ => .error (invalidEntry i)
      | _ => .error (invalidEntry i)
    | _ => .error (invalidEntry i)

/-- The loop of `GetNodeConns` over `infos`; `ret` starts as the `nil` slice. -/
def connsLoop :
    List (List Value) → Option (List InfoConnection) → List Call → Outcome (List InfoConnection)
  | [], ret, calls => ⟨ret, none, calls⟩
  | i :: infos, ret, calls =>
    match connOfEntry i with
    | .error err => ⟨none, some err, calls⟩
    | .ok conn => connsLoop infos (some (ret.getD [] ++ [conn])) calls

/-- GetNodeConns returns infos about connections of a node. -/
def GetNodeConns (env : Env) (n : Node) (nodeName : String) : Outcome (List InfoConnection) :=
  match n.apiMasterClient.LookupNode nodeName with
  | .error err => ⟨none, some err, [Call.LookupNode nodeName]⟩
  | .ok url =>
    match env.urlToAddress url with
    | .error err => ⟨none, some err, [Call.LookupNode nodeName]⟩
    | .ok address =>
      match env.GetBusInfo address n.absoluteName with
      | .error err =>
        ⟨none, some err, [Call.LookupNode nodeName, Call.GetBusInfo address n.absoluteName]⟩
      | .ok infos =>
        connsLoop infos none
          [Call.LookupNode nodeName, Call.GetBusInfo address n.absoluteName]

/-! ## Vocabulary of the statements -/

/-- The record `initEntry` stores for a new node. -/
def newInfoNode : InfoNode :=
  { PublishedTopics := [], SubscribedTopics := [], ProvidedServices := [], Address := "" }

/-- The record of `key` in `ret`, and `newInfoNode` when `key` is absent. -/
def nodeView (ret : GoMap InfoNode) (key : String) : InfoNode :=
  (mapGet ret key).getD newInfoNode

/-- One round of an inner loop of `GetNodes`: `initEntry(node)`, then an update of the
record of `node`. -/
def nodesStep (upd : InfoNode → InfoNode) (ret : GoMap InfoNode) (node : String) :
    GoMap InfoNode :=
  mapModify (initEntry ret node) node upd

/-- The common shape of the three loops of `GetNodes` over the state. -/
def nodesFold (upd : String → InfoNode → InfoNode) (entries : List SystemStateEntry)
    (ret : GoMap InfoNode) : GoMap InfoNode :=
  entries.foldl (fun ret entry => entry.Nodes.foldl (nodesStep (upd entry.Name)) ret) ret

/-- The update of the first loop of `GetNodes`: `info.PublishedTopics[name] = struct{}{}`. -/
def updPublished (name : String) (info : InfoNode) : InfoNode :=
  { info with PublishedTopics := setAdd info.PublishedTopics name }

/-- The update of the second loop of `GetNodes`. -/
def updSubscribed (name : String) (info : InfoNode) : InfoNode :=
  { info with SubscribedTopics := setAdd info.SubscribedTopics name }

/-- The update of the third loop of `GetNodes`. -/
def updProvided (name : String) (info : InfoNode) : InfoNode :=
  { info with ProvidedServices := setAdd info.ProvidedServices name }

/-- The node names that occur in the `Nodes` list of an entry of `entries`. -/
def nodesIn (entries : List SystemStateEntry) : List String :=
  entries.flatMap (fun entry => entry.Nodes)

/-- The names of the entries of `entries` whose `Nodes` list contains `node`. -/
def namesWith (entries : List SystemStateEntry) (node : String) : List String :=
  (entries.filter (fun entry => decide (node ∈ entry.Nodes))).map (fun entry => entry.Name)

/-- The node names of a system state: those of the published topics, of the subscribed
topics and of the provided services. -/
def nodeNames (st : SystemState) : List String :=
  nodesIn st.PublishedTopics ++ nodesIn st.SubscribedTopics ++ nodesIn st.ProvidedServices

/-- The address `GetNodes` and `GetNodeConns` give a node: `urlToAddress` applied to
the URL that `LookupNode` returns; `none` when one of the two fails. -/
def nodeAddress (env : Env) (n : Node) (name : String) : Option String :=
  match n.apiMasterClient.LookupNode name with
  | .error _ => none
  | .ok url =>
    match env.urlToAddress url with
    | .error _ => none
    | .ok address => some address

/-- The address `GetServices` gives a service: `urlToAddress` applied to the URL that
`LookupService` returns; `none` when one of the two fails. -/
def serviceAddress (env : Env) (n : Node) (name : String) : Option String :=
  match n.apiMasterClient.LookupService name with
  | .error _ => none
  | .ok url =>
    match env.urlToAddress url with
    | .error _ => none
    | .ok address => some address

/-- The type the type snapshot declares for the topic `name`: that of the last entry
of `types` with this name, `none` when there is no such entry. -/
def declaredType : List TopicType → String → Option String
  | [], _ => none
  | entry :: types, name =>
    match declaredType types name with
    | some typ => some typ
    | none => if entry.Name = name then some entry.Typ else none

/-- The names added to a set by the entries of `entries` that are named `name`: the set
obtained from `s` by adding, entry after entry, the nodes of each such entry. -/
def addNodesOf (entries : List SystemStateEntry) (name : String) (s : List String) :
    List String :=
  entries.foldl (fun s entry => if entry.Name = name then entry.Nodes.foldl setAdd s else s) s

/-- The record of a service that is new in the map of `GetServices`. -/
def newInfoService : InfoService := { Providers := [], Address := "" }

/-- The elements of a Go slice; the `nil` slice has none. -/
def sliceElems {α : Type} (s : Option (List α)) : List α := s.getD []

/-- Whether a field of a tuple is there and is an `int`. -/
def isInt : Option Value → Bool
  | some (.int _) => true
  | _ => false

/-- Whether a field of a tuple is there and is a `string`. -/
def isStr : Option Value → Bool
  | some (.str _) => true
  | _ => false

/-- Whether a field of a tuple is there and is a `string` of length 1, the length being
`len`, the number of bytes. -/
def isStrLen1 : Option Value → Bool
  | some (.str s) => decide ((goBytes s).length = 1)
  | _ => false

/-- Whether a field of a tuple is there and is a `bool`. -/
def isBool : Option Value → Bool
  | some (.bool _) => true
  | _ => false

/-- A malformed bus-info tuple, in the words of the specification: its arity is below 6,
or field 0 is not an integer, or field 1 is not a string, or field 2 is not a string of
length 1, or field 3 is not a string, or field 4 is not a string, or field 5 is not a
boolean. -/
def malformed (i : List Value) : Prop :=
  i.length < 6 ∨ isInt i[0]? = false ∨ isStr i[1]? = false ∨ isStrLen1 i[2]? = false
    ∨ isStr i[3]? = false ∨ isStr i[4]? = false ∨ isBool i[5]? = false

instance (i : List Value) : Decidable (malformed i) := by
  unfold malformed
  infer_instance

/-- Whether the text of an error mentions `name`: `name` occurs in `text`. -/
def mentions (text name : String) : Prop := name.data <:+: text.data

instance (text name : String) : Decidable (mentions text name) := by
  unfold mentions
  infer_instance

/-- Whether a call is a `GetPid` request. -/
def isGetPid : Call → Bool
  | .GetPid _ _ => true
  | _ => false

/-- Whether a call is a `Shutdown` request. -/
def isShutdown : Call → Bool
  | .Shutdown _ _ _ => true
  | _ => false

/-! ## Examples -/

/-- A resolver for the examples: it knows three URLs and fails on any other. -/
def exResolve (url : String) : Except GoError String :=
  if url = "http://a:1" then .ok "a:1"
  else if url = "http://b:2" then .ok "b:2"
  else if url = "http://a:3" then .ok "a:3"
  else .error "invalid url"

/-- A system state: `/lidar` publishes and subscribes `/scan`, `/nav` subscribes `/scan`
and publishes `/tf`, and `/only` does nothing but provide the service `/srv`. -/
def exState : SystemState :=
  { PublishedTopics := [⟨"/scan", ["/lidar"]⟩, ⟨"/tf", ["/nav"]⟩],
    SubscribedTopics := [⟨"/scan", ["/nav", "/lidar"]⟩],
    ProvidedServices := [⟨"/srv", ["/only"]⟩] }

/-- The type snapshot of the examples: it declares `/scan` and omits `/tf`. -/
def exTypes : List TopicType := [⟨"/scan", "sensor_msgs/LaserScan"⟩]

/-- The map `GetNodes` returns in the examples. -/
def exNodes : GoMap InfoNode :=
  [("/lidar", ⟨["/scan"], ["/scan"], [], "a:1"⟩), ("/nav", ⟨["/tf"], ["/scan"], [], "b:2"⟩),
    ("/only", ⟨[], [], ["/srv"], "a:3"⟩)]

/-- The map `GetTopics` returns in the examples. -/
def exTopics : GoMap InfoTopic :=
  [("/scan", ⟨"sensor_msgs/LaserScan", ["/lidar"], ["/nav", "/lidar"]⟩)]

/-- The map `GetServices` returns in the examples. -/
def exServices : GoMap InfoService := [("/srv", ⟨["/only"], "b:2"⟩)]

/-- A master that answers every call of the examples. -/
def exMaster : ApiMasterClient :=
  { GetSystemState := .ok exState
    GetTopicTypes := .ok exTypes
    LookupNode := fun name =>
      if name = "/lidar" then .ok "http://a:1"
      else if name = "/nav" then .ok "http://b:2"
      else if name = "/only" then .ok "http://a:3"
      else .error "unknown node"
    LookupService := fun name =>
      if name = "/srv" then .ok "http://b:2" else .error "unknown service" }

/-- A master like `exMaster` that does not know the node `/nav`. -/
def exMasterNoNav : ApiMasterClient :=
  { exMaster with
    LookupNode := fun name =>
      if name = "/lidar" then .ok "http://a:1"
      else if name = "/only" then .ok "http://a:3"
      else .error "unknown node" }

/-- A master whose `GetSystemState` fails. -/
def exMasterDown : ApiMasterClient :=
  { exMaster with GetSystemState := .error "connection refused" }

/-- The node of the examples. -/
def exNode : Node := { apiMasterClient := exMaster, absoluteName := "/me" }

/-- The node of the examples, on the master `exMasterNoNav`. -/
def exNodeNoNav : Node := { apiMasterClient := exMasterNoNav, absoluteName := "/me" }

/-- The node of the examples, on the master `exMasterDown`. -/
def exNodeDown : Node := { apiMasterClient := exMasterDown, absoluteName := "/me" }

/-- A system state with two services; the master of the examples knows `/srv` only. -/
def exStateTwo : SystemState :=
  { PublishedTopics := [], SubscribedTopics := [],
    ProvidedServices := [⟨"/srv", ["/only"]⟩, ⟨"/gone", ["/lidar"]⟩] }

/-- The node of the examples, on a master that returns the state `exStateTwo`. -/
def exNodeTwo : Node :=
  { apiMasterClient := { exMaster with GetSystemState := .ok exStateTwo }, absoluteName := "/me" }

/-- The node of the examples, on a master whose `GetTopicTypes` fails. -/
def exNodeNoTypes : Node :=
  { apiMasterClient := { exMaster with GetTopicTypes := .error "timeout" },
    absoluteName := "/me" }

/-- A system state that lists the service `/srv` twice, with different nodes. -/
def exStateDup : SystemState :=
  { PublishedTopics := [], SubscribedTopics := [],
    ProvidedServices := [⟨"/srv", ["/only"]⟩, ⟨"/srv", ["/lidar"]⟩] }

/-- The node of the examples, on a master that returns the state `exStateDup`. -/
def exNodeDup : Node :=
  { apiMasterClient := { exMaster with GetSystemState := .ok exStateDup }, absoluteName := "/me" }

/-- A type snapshot that lists `/scan` twice, with different types. -/
def exTypesDup : List TopicType :=
  [⟨"/scan", "std_msgs/String"⟩, ⟨"/tf", "tf/tfMessage"⟩, ⟨"/scan", "sensor_msgs/LaserScan"⟩]

/-- The node of the examples, on a master that returns the type snapshot `exTypesDup`. -/
def exNodeTypesDup : Node :=
  { apiMasterClient := { exMaster with GetTopicTypes := .ok exTypesDup }, absoluteName := "/me" }

/-- The bus info of the peers: one connection at `a:1`; at `b:2` a connection and a tuple
whose direction is `"io"`; at `a:3` two connections, the second with a seventh field;
other peers do not answer. -/
def exBusInfo (address : String) (_caller : String) : Except GoError (List (List Value)) :=
  if address = "a:1" then
    .ok [[.int 3, .str "http://x:1", .str "i", .str "TCPROS", .str "/scan", .bool true]]
  else if address = "b:2" then
    .ok [[.int 1, .str "http://x:1", .str "o", .str "TCPROS", .str "/tf", .bool true],
      [.int 2, .str "http://x:1", .str "io", .str "TCPROS", .str "/scan", .bool true]]
  else if address = "a:3" then
    .ok [[.int 1, .str "http://y:1", .str "o", .str "TCPROS", .str "/tf", .bool true],
      [.int 2, .str "http://y:2", .str "i", .str "UDPROS", .str "/scan", .bool false,
        .other "1.5"]]
  else .error "unreachable"

/-- The answers of `net.SplitHostPort` in the examples; `nowhere` has no port. -/
def exSplitHostPort (hostport : String) : Except GoError (String × String) :=
  if hostport = "a:1" then .ok ("a", "1")
  else if hostport = "b:2" then .ok ("b", "2")
  else if hostport = "a:3" then .ok ("a", "3")
  else .error "missing port in address"

/-- An environment in which `range` walks a map from the last key inserted to the first,
and the clock advances by 250 ns between two readings. -/
def exEnv : Env :=
  { urlToAddress := exResolve
    GetPid := fun address _ => if address = "a:1" then .ok 4242 else .error "unreachable"
    Shutdown := fun address _ _ => if address = "a:1" then .ok () else .error "unreachable"
    GetBusInfo := exBusInfo
    rangeOrder := List.reverse
    rangeOrder_perm := List.reverse_perm
    SplitHostPort := exSplitHostPort
    clock := fun k => 1000 + 250 * k
    clock_mono := fun k => by
      show (1000 : Int) + 250 * (k : Int) ≤ 1000 + 250 * ((k + 1 : Nat) : Int)
      omega }

/-- An environment like `exEnv` in which `range` walks a map in the order of insertion. -/
def exEnvForward : Env :=
  { exEnv with rangeOrder := id, rangeOrder_perm := fun ks => List.Perm.refl ks }

end Goroslib

/-! ## Lemmas on maps and sets -/

namespace Goroslib

theorem mem_setAdd (s : List String) (key x : String) :
    x ∈ setAdd s key ↔ x ∈ s ∨ x = key := by
  unfold setAdd
  by_cases h : key ∈ s
  · simp only [h, if_true]
    constructor
    · exact Or.inl
    · rintro (hx | rfl)
      · exact hx
      · exact h
  · simp [h]

theorem nodup_setAdd (s : List String) (key : String) (hs : s.Nodup) :
    (setAdd s key).Nodup := by
  unfold setAdd
  by_cases h : key ∈ s
  · simpa [h] using hs
  · simp only [h, if_false]
    exact List.Nodup.append hs (List.nodup_singleton key) (by simpa using h)

theorem mapGet_eq_none_iff {V : Type} (m : GoMap V) (key : String) :
    mapGet m key = none ↔ key ∉ mapKeys m := by
  induction m with
  | nil => simp [mapGet, mapKeys]
  | cons p m ih =>
    obtain ⟨k, v⟩ := p
    by_cases h : k = key
    · simp [mapGet, mapKeys, h]
    · have h2 : ¬ key = k := fun e => h e.symm
      simpa [mapGet, mapKeys, h, h2] using ih

theorem mapGet_isSome_iff {V : Type} (m : GoMap V) (key : String) :
    (∃ v, mapGet m key = some v) ↔ key ∈ mapKeys m := by
  rw [← not_iff_not, ← mapGet_eq_none_iff]
  cases mapGet m key <;> simp

theorem mapGet_mapSet {V : Type} (m : GoMap V) (key : String) (v : V) (k : String) :
    mapGet (mapSet m key v) k = if key = k then some v else mapGet m k := by
  induction m with
  | nil => simp [mapGet, mapSet]
  | cons p m ih =>
    obtain ⟨a, w⟩ := p
    by_cases h : a = key
    · subst h
      by_cases h2 : a = k <;> simp [mapGet, mapSet, h2]
    · by_cases h2 : a = k
      · subst h2
        have h3 : ¬ key = a := fun e => h e.symm
        simp [mapGet, mapSet, h, h3]
      · simp [mapGet, mapSet, h, h2, ih]

theorem mem_mapKeys_mapSet {V : Type} (m : GoMap V) (key : String) (v : V) (k : String) :
    k ∈ mapKeys (mapSet m key v) ↔ k ∈ mapKeys m ∨ k = key := by
  rw [← mapGet_isSome_iff, ← mapGet_isSome_iff, mapGet_mapSet]
  by_cases h : key = k
  · subst h
    simp
  · have h2 : ¬ k = key := fun e => h e.symm
    simp [h, h2]

theorem mapKeys_mapSet_of_mem {V : Type} (m : GoMap V) (key : String) (v : V)
    (h : key ∈ mapKeys m) : mapKeys (mapSet m key v) = mapKeys m := by
  induction m with
  | nil => simp [mapKeys] at h
  | cons p m ih =>
    obtain ⟨a, w⟩ := p
    by_cases h2 : a = key
    · simp [mapSet, mapKeys, h2]
    · have h3 : key ∈ mapKeys m := by
        have h4 : ¬ key = a := fun e => h2 e.symm
        simpa [mapKeys, h4] using h
      have := ih h3
      simp only [mapKeys] at this
      simp [mapSet, mapKeys, h2, this]

theorem mapKeys_mapSet_of_not_mem {V : Type} (m : GoMap V) (key : String) (v : V)
    (h : key ∉ mapKeys m) : mapKeys (mapSet m key v) = mapKeys m ++ [key] := by
  induction m with
  | nil => simp [mapSet, mapKeys]
  | cons p m ih =>
    obtain ⟨a, w⟩ := p
    have h2 : ¬ a = key := by
      intro e
      apply h
      simp [mapKeys, e]
    have h3 : key ∉ mapKeys m := by
      intro e
      apply h
      simp only [mapKeys] at e
      simp [mapKeys, e]
    have := ih h3
    simp only [mapKeys] at this
    simp [mapSet, mapKeys, h2, this]

theorem nodup_mapKeys_mapSet {V : Type} (m : GoMap V) (key : String) (v : V)
    (hm : (mapKeys m).Nodup) : (mapKeys (mapSet m key v)).Nodup := by
  by_cases h : key ∈ mapKeys m
  · rw [mapKeys_mapSet_of_mem m key v h]
    exact hm
  · rw [mapKeys_mapSet_of_not_mem m key v h]
    exact List.Nodup.append hm (List.nodup_singleton key) (by simpa using h)

theorem mapKeys_mapModify {V : Type} (m : GoMap V) (key : String) (f : V → V) :
    mapKeys (mapModify m key f) = mapKeys m := by
  unfold mapModify
  cases h : mapGet m key with
  | none => rfl
  | some v => exact mapKeys_mapSet_of_mem m key (f v) ((mapGet_isSome_iff m key).1 ⟨v, h⟩)

theorem mapGet_mapModify {V : Type} (m : GoMap V) (key : String) (f : V → V) (k : String) :
    mapGet (mapModify m key f) k = if key = k then (mapGet m k).map f else mapGet m k := by
  unfold mapModify
  cases h : mapGet m key with
  | none =>
    by_cases h2 : key = k
    · subst h2
      simp [h]
    · simp [h2]
  | some v =>
    rw [mapGet_mapSet]
    by_cases h2 : key = k
    · subst h2
      simp [h]
    · simp [h2]

/-! ## Lemmas on the loops of GetNodes -/

theorem mem_nodesIn (entries : List SystemStateEntry) (k : String) :
    k ∈ nodesIn entries ↔ ∃ e ∈ entries, k ∈ e.Nodes := by
  simp [nodesIn, List.mem_flatMap]

theorem mem_namesWith (entries : List SystemStateEntry) (node x : String) :
    x ∈ namesWith entries node ↔ ∃ e ∈ entries, e.Name = x ∧ node ∈ e.Nodes := by
  simp only [namesWith, List.mem_map, List.mem_filter, decide_eq_true_eq]
  constructor
  · rintro ⟨e, ⟨he, hn⟩, hx⟩
    exact ⟨e, he, hx, hn⟩
  · rintro ⟨e, he, hx, hn⟩
    exact ⟨e, ⟨he, hn⟩, hx⟩

theorem mapGet_eq_some_nodeView (ret : GoMap InfoNode) (k : String) (h : k ∈ mapKeys ret) :
    mapGet ret k = some (nodeView ret k) := by
  obtain ⟨v, hv⟩ := (mapGet_isSome_iff ret k).2 h
  simp [nodeView, hv]

theorem mapGet_initEntry (ret : GoMap InfoNode) (node k : String) :
    mapGet (initEntry ret node) k
      = if node = k then some (nodeView ret k) else mapGet ret k := by
  unfold initEntry
  cases h : mapGet ret node with
  | some v =>
    by_cases h2 : node = k
    · subst h2
      simp [nodeView, h]
    · simp [h2]
  | none =>
    simp only [mapGet_mapSet]
    by_cases h2 : node = k
    · subst h2
      simp [nodeView, h, newInfoNode]
    · simp [h2]

theorem mem_mapKeys_initEntry (ret : GoMap InfoNode) (node k : String) :
    k ∈ mapKeys (initEntry ret node) ↔ k ∈ mapKeys ret ∨ k = node := by
  unfold initEntry
  cases h : mapGet ret node with
  | some v =>
    have hn : node ∈ mapKeys ret := (mapGet_isSome_iff ret node).1 ⟨v, h⟩
    constructor
    · exact Or.inl
    · rintro (hk | rfl)
      · exact hk
      · exact hn
  | none => exact mem_mapKeys_mapSet ret node _ k

theorem nodup_mapKeys_initEntry (ret : GoMap InfoNode) (node : String)
    (h : (mapKeys ret).Nodup) : (mapKeys (initEntry ret node)).Nodup := by
  unfold initEntry
  cases mapGet ret node with
  | some v => exact h
  | none => exact nodup_mapKeys_mapSet ret node _ h

theorem mem_mapKeys_nodesStep (upd : InfoNode → InfoNode) (ret : GoMap InfoNode)
    (node k : String) :
    k ∈ mapKeys (nodesStep upd ret node) ↔ k ∈ mapKeys ret ∨ k = node := by
  unfold nodesStep
  rw [mapKeys_mapModify]
  exact mem_mapKeys_initEntry ret node k

theorem nodup_mapKeys_nodesStep (upd : InfoNode → InfoNode) (ret : GoMap InfoNode)
    (node : String) (h : (mapKeys ret).Nodup) : (mapKeys (nodesStep upd ret node)).Nodup := by
  unfold nodesStep
  rw [mapKeys_mapModify]
  exact nodup_mapKeys_initEntry ret node h

theorem nodeView_nodesStep (upd : InfoNode → InfoNode) (ret : GoMap InfoNode)
    (node k : String) :
    nodeView (nodesStep upd ret node) k
      = if node = k then upd (nodeView ret k) else nodeView ret k := by
  unfold nodesStep
  simp only [nodeView, mapGet_mapModify, mapGet_initEntry]
  by_cases h : node = k
  · simp [h, nodeView]
  · simp [h]

theorem mem_mapKeys_foldl_nodesStep (upd : InfoNode → InfoNode) (nodes : List String)
    (ret : GoMap InfoNode) (k : String) :
    k ∈ mapKeys (nodes.foldl (nodesStep upd) ret) ↔ k ∈ mapKeys ret ∨ k ∈ nodes := by
  induction nodes generalizing ret with
  | nil => simp
  | cons a nodes ih =>
    rw [List.foldl_cons, ih, mem_mapKeys_nodesStep, List.mem_cons]
    tauto

theorem nodup_mapKeys_foldl_nodesStep (upd : InfoNode → InfoNode) (nodes : List String)
    (ret : GoMap InfoNode) (h : (mapKeys ret).Nodup) :
    (mapKeys (nodes.foldl (nodesStep upd) ret)).Nodup := by
  induction nodes generalizing ret with
  | nil => exact h
  | cons a nodes ih =>
    rw [List.foldl_cons]
    exact ih _ (nodup_mapKeys_nodesStep upd ret a h)

theorem mem_mapKeys_nodesFold (upd : String → InfoNode → InfoNode)
    (entries : List SystemStateEntry) (ret : GoMap InfoNode) (k : String) :
    k ∈ mapKeys (nodesFold upd entries ret) ↔ k ∈ mapKeys ret ∨ k ∈ nodesIn entries := by
  unfold nodesFold
  induction entries generalizing ret with
  | nil => simp [nodesIn]
  | cons e entries ih =>
    rw [List.foldl_cons, ih, mem_mapKeys_foldl_nodesStep]
    simp only [nodesIn, List.flatMap_cons, List.mem_append]
    tauto

theorem nodup_mapKeys_nodesFold (upd : String → InfoNode → InfoNode)
    (entries : List SystemStateEntry) (ret : GoMap InfoNode) (h : (mapKeys ret).Nodup) :
    (mapKeys (nodesFold upd entries ret)).Nodup := by
  unfold nodesFold
  induction entries generalizing ret with
  | nil => exact h
  | cons e entries ih =>
    rw [List.foldl_cons]
    exact ih _ (nodup_mapKeys_foldl_nodesStep _ e.Nodes ret h)

theorem mem_field_foldl_nodesStep (proj : InfoNode → List String) (upd : InfoNode → InfoNode)
    (name : String) (hown : ∀ info, proj (upd info) = setAdd (proj info) name)
    (nodes : List String) (ret : GoMap InfoNode) (k x : String) :
    x ∈ proj (nodeView (nodes.foldl (nodesStep upd) ret) k)
      ↔ x ∈ proj (nodeView ret k) ∨ (x = name ∧ k ∈ nodes) := by
  induction nodes generalizing ret with
  | nil => simp
  | cons a nodes ih =>
    rw [List.foldl_cons, ih, nodeView_nodesStep, List.mem_cons]
    by_cases h : a = k
    · subst h
      simp only [if_true, hown, mem_setAdd]
      tauto
    · have h2 : ¬ k = a := fun e => h e.symm
      simp only [h, if_false, h2, false_or]

theorem nodup_field_foldl_nodesStep (proj : InfoNode → List String) (upd : InfoNode → InfoNode)
    (name : String) (hown : ∀ info, proj (upd info) = setAdd (proj info) name)
    (nodes : List String) (ret : GoMap InfoNode) (k : String)
    (h : (proj (nodeView ret k)).Nodup) :
    (proj (nodeView (nodes.foldl (nodesStep upd) ret) k)).Nodup := by
  induction nodes generalizing ret with
  | nil => exact h
  | cons a nodes ih =>
    rw [List.foldl_cons]
    apply ih
    rw [nodeView_nodesStep]
    by_cases h2 : a = k
    · simp only [h2, if_true, hown]
      exact nodup_setAdd _ _ h
    · simpa only [h2, if_false] using h

theorem other_field_foldl_nodesStep {β : Type} (g : InfoNode → β) (upd : InfoNode → InfoNode)
    (hother : ∀ info, g (upd info) = g info)
    (nodes : List String) (ret : GoMap InfoNode) (k : String) :
    g (nodeView (nodes.foldl (nodesStep upd) ret) k) = g (nodeView ret k) := by
  induction nodes generalizing ret with
  | nil => rfl
  | cons a nodes ih =>
    rw [List.foldl_cons, ih, nodeView_nodesStep]
    by_cases h : a = k
    · simp only [h, if_true, hother]
    · simp only [h, if_false]

theorem mem_field_nodesFold (proj : InfoNode → List String) (upd : String → InfoNode → InfoNode)
    (hown : ∀ name info, proj (upd name info) = setAdd (proj info) name)
    (entries : List SystemStateEntry) (ret : GoMap InfoNode) (k x : String) :
    x ∈ proj (nodeView (nodesFold upd entries ret) k)
      ↔ x ∈ proj (nodeView ret k) ∨ x ∈ namesWith entries k := by
  unfold nodesFold
  induction entries generalizing ret with
  | nil => simp [namesWith]
  | cons e entries ih =>
    rw [List.foldl_cons, ih,
      mem_field_foldl_nodesStep proj (upd e.Name) e.Name (hown e.Name), mem_namesWith,
      mem_namesWith]
    simp only [List.mem_cons, exists_eq_or_imp]
    constructor
    · rintro ((h | ⟨h1, h2⟩) | h)
      · exact Or.inl h
      · exact Or.inr (Or.inl ⟨h1.symm, h2⟩)
      · exact Or.inr (Or.inr h)
    · rintro (h | ⟨h1, h2⟩ | h)
      · exact Or.inl (Or.inl h)
      · exact Or.inl (Or.inr ⟨h1.symm, h2⟩)
      · exact Or.inr h

theorem nodup_field_nodesFold (proj : InfoNode → List String)
    (upd : String → InfoNode → InfoNode)
    (hown : ∀ name info, proj (upd name info) = setAdd (proj info) name)
    (entries : List SystemStateEntry) (ret : GoMap InfoNode) (k : String)
    (h : (proj (nodeView ret k)).Nodup) :
    (proj (nodeView (nodesFold upd entries ret) k)).Nodup := by
  unfold nodesFold
  induction entries generalizing ret with
  | nil => exact h
  | cons e entries ih =>
    rw [List.foldl_cons]
    exact ih _ (nodup_field_foldl_nodesStep proj (upd e.Name) e.Name (hown e.Name) e.Nodes ret k h)

theorem other_field_nodesFold {β : Type} (g : InfoNode → β) (upd : String → InfoNode → InfoNode)
    (hother : ∀ name info, g (upd name info) = g info)
    (entries : List SystemStateEntry) (ret : GoMap InfoNode) (k : String) :
    g (nodeView (nodesFold upd entries ret) k) = g (nodeView ret k) := by
  unfold nodesFold
  induction entries generalizing ret with
  | nil => rfl
  | cons e entries ih =>
    rw [List.foldl_cons, ih, other_field_foldl_nodesStep g (upd e.Name) (hother e.Name)]

theorem nodesPublished_eq (entries : List SystemStateEntry) (ret : GoMap InfoNode) :
    nodesPublished entries ret
      = nodesFold updPublished entries ret := rfl

theorem nodesSubscribed_eq (entries : List SystemStateEntry) (ret : GoMap InfoNode) :
    nodesSubscribed entries ret
      = nodesFold updSubscribed entries ret := rfl

theorem nodesProvided_eq (entries : List SystemStateEntry) (ret : GoMap InfoNode) :
    nodesProvided entries ret
      = nodesFold updProvided entries ret := rfl

theorem mem_mapKeys_nodesOfState (st : SystemState) (k : String) :
    k ∈ mapKeys (nodesOfState st) ↔ k ∈ nodeNames st := by
  unfold nodesOfState nodeNames
  rw [nodesProvided_eq, nodesSubscribed_eq, nodesPublished_eq, mem_mapKeys_nodesFold,
    mem_mapKeys_nodesFold, mem_mapKeys_nodesFold]
  simp [mapKeys, or_assoc]

theorem nodup_mapKeys_nodesOfState (st : SystemState) : (mapKeys (nodesOfState st)).Nodup := by
  unfold nodesOfState
  rw [nodesProvided_eq, nodesSubscribed_eq, nodesPublished_eq]
  apply nodup_mapKeys_nodesFold
  apply nodup_mapKeys_nodesFold
  apply nodup_mapKeys_nodesFold
  simp [mapKeys]

theorem nodeView_nil (k : String) : nodeView [] k = newInfoNode := rfl

theorem mem_published_nodesOfState (st : SystemState) (k x : String) :
    x ∈ (nodeView (nodesOfState st) k).PublishedTopics ↔ x ∈ namesWith st.PublishedTopics k := by
  unfold nodesOfState
  rw [nodesProvided_eq, nodesSubscribed_eq, nodesPublished_eq,
    other_field_nodesFold (fun i => i.PublishedTopics) updProvided (fun _ _ => rfl),
    other_field_nodesFold (fun i => i.PublishedTopics) updSubscribed (fun _ _ => rfl),
    mem_field_nodesFold (fun i => i.PublishedTopics) updPublished (fun _ _ => rfl), nodeView_nil]
  simp [newInfoNode]

theorem mem_subscribed_nodesOfState (st : SystemState) (k x : String) :
    x ∈ (nodeView (nodesOfState st) k).SubscribedTopics
      ↔ x ∈ namesWith st.SubscribedTopics k := by
  unfold nodesOfState
  rw [nodesProvided_eq, nodesSubscribed_eq, nodesPublished_eq,
    other_field_nodesFold (fun i => i.SubscribedTopics) updProvided (fun _ _ => rfl),
    mem_field_nodesFold (fun i => i.SubscribedTopics) updSubscribed (fun _ _ => rfl),
    other_field_nodesFold (fun i => i.SubscribedTopics) updPublished (fun _ _ => rfl), nodeView_nil]
  simp [newInfoNode]

theorem mem_provided_nodesOfState (st : SystemState) (k x : String) :
    x ∈ (nodeView (nodesOfState st) k).ProvidedServices
      ↔ x ∈ namesWith st.ProvidedServices k := by
  unfold nodesOfState
  rw [nodesProvided_eq, nodesSubscribed_eq, nodesPublished_eq,
    mem_field_nodesFold (fun i => i.ProvidedServices) updProvided (fun _ _ => rfl),
    other_field_nodesFold (fun i => i.ProvidedServices) updSubscribed (fun _ _ => rfl),
    other_field_nodesFold (fun i => i.ProvidedServices) updPublished (fun _ _ => rfl), nodeView_nil]
  simp [newInfoNode]

theorem nodup_fields_nodesOfState (st : SystemState) (k : String) :
    (nodeView (nodesOfState st) k).PublishedTopics.Nodup
      ∧ (nodeView (nodesOfState st) k).SubscribedTopics.Nodup
      ∧ (nodeView (nodesOfState st) k).ProvidedServices.Nodup := by
  unfold nodesOfState
  rw [nodesProvided_eq, nodesSubscribed_eq, nodesPublished_eq]
  refine ⟨?_, ?_, ?_⟩
  · rw [other_field_nodesFold (fun i => i.PublishedTopics) updProvided (fun _ _ => rfl),
      other_field_nodesFold (fun i => i.PublishedTopics) updSubscribed (fun _ _ => rfl)]
    apply nodup_field_nodesFold (fun i => i.PublishedTopics) updPublished (fun _ _ => rfl)
    simp [nodeView_nil, newInfoNode]
  · rw [other_field_nodesFold (fun i => i.SubscribedTopics) updProvided (fun _ _ => rfl)]
    apply nodup_field_nodesFold (fun i => i.SubscribedTopics) updSubscribed (fun _ _ => rfl)
    rw [other_field_nodesFold (fun i => i.SubscribedTopics) updPublished (fun _ _ => rfl)]
    simp [nodeView_nil, newInfoNode]
  · apply nodup_field_nodesFold (fun i => i.ProvidedServices) updProvided (fun _ _ => rfl)
    rw [other_field_nodesFold (fun i => i.ProvidedServices) updSubscribed (fun _ _ => rfl),
      other_field_nodesFold (fun i => i.ProvidedServices) updPublished (fun _ _ => rfl)]
    simp [nodeView_nil, newInfoNode]

theorem mem_nodeNames (st : SystemState) (k : String) :
    k ∈ nodeNames st ↔ (∃ e ∈ st.PublishedTopics, k ∈ e.Nodes)
      ∨ (∃ e ∈ st.SubscribedTopics, k ∈ e.Nodes) ∨ (∃ e ∈ st.ProvidedServices, k ∈ e.Nodes) := by
  simp only [nodeNames, List.mem_append, mem_nodesIn, or_assoc]

theorem nodeAddress_eq_some_iff (env : Env) (n : Node) (k address : String) :
    nodeAddress env n k = some address
      ↔ ∃ url, n.apiMasterClient.LookupNode k = .ok url ∧ env.urlToAddress url = .ok address := by
  unfold nodeAddress
  cases h1 : n.apiMasterClient.LookupNode k with
  | error e => simp
  | ok url =>
    cases h2 : env.urlToAddress url with
    | error e => simp [h2]
    | ok a => simp [h2]

theorem nodeAddress_eq_none_iff (env : Env) (n : Node) (k : String) :
    nodeAddress env n k = none
      ↔ (∃ e, n.apiMasterClient.LookupNode k = .error e)
        ∨ ∃ url e, n.apiMasterClient.LookupNode k = .ok url ∧ env.urlToAddress url = .error e := by
  unfold nodeAddress
  cases h1 : n.apiMasterClient.LookupNode k with
  | error e => simp
  | ok url =>
    cases h2 : env.urlToAddress url with
    | error e => simp [h2]
    | ok a => simp [h2]

theorem nodesLookup_ok (env : Env) (n : Node) (keys : List String) (ret : GoMap InfoNode)
    (calls : List Call) (h : ∀ k ∈ keys, ∃ a, nodeAddress env n k = some a) :
    ∃ ret2, nodesLookup env n keys ret calls
        = ⟨some ret2, none, calls ++ keys.map Call.LookupNode⟩
      ∧ mapKeys ret2 = mapKeys ret
      ∧ ∀ k, mapGet ret2 k = (mapGet ret k).map (fun info =>
          { info with
            Address := if k ∈ keys then (nodeAddress env n k).getD "" else info.Address }) := by
  induction keys generalizing ret calls with
  | nil =>
    refine ⟨ret, by simp [nodesLookup], rfl, ?_⟩
    intro k
    cases mapGet ret k <;> simp
  | cons a keys ih =>
    obtain ⟨addr, ha⟩ := h a (List.mem_cons_self a keys)
    obtain ⟨url, hurl, haddr⟩ := (nodeAddress_eq_some_iff env n a addr).1 ha
    obtain ⟨ret2, h1, h2, h3⟩ :=
      ih (mapModify ret a (fun info => { info with Address := addr }))
        (calls ++ [Call.LookupNode a]) (fun k hk => h k (List.mem_cons_of_mem a hk))
    refine ⟨ret2, ?_, ?_, ?_⟩
    · simp only [nodesLookup, hurl, haddr, h1, List.map_cons, List.append_assoc,
        List.singleton_append]
    · rw [h2, mapKeys_mapModify]
    · intro k
      rw [h3, mapGet_mapModify]
      by_cases hk : a = k
      · subst hk
        cases mapGet ret a with
        | none => simp
        | some info =>
          by_cases hm : a ∈ keys <;> simp [hm, ha]
      · have hk2 : ¬ k = a := fun e => hk e.symm
        simp only [hk, if_false, List.mem_cons, hk2, false_or]

theorem nodesLookup_fail (env : Env) (n : Node) (keys : List String) (ret : GoMap InfoNode)
    (calls : List Call) (h : ∃ k ∈ keys, nodeAddress env n k = none) :
    (nodesLookup env n keys ret calls).val = none
      ∧ ∃ e, (nodesLookup env n keys ret calls).err = some e := by
  induction keys generalizing ret calls with
  | nil =>
    obtain ⟨k, hk, _⟩ := h
    cases hk
  | cons a keys ih =>
    cases h1 : n.apiMasterClient.LookupNode a with
    | error e => simp [nodesLookup, h1]
    | ok url =>
      cases h2 : env.urlToAddress url with
      | error e => simp [nodesLookup, h1, h2]
      | ok addr =>
        simp only [nodesLookup, h1, h2]
        apply ih
        obtain ⟨k, hk, hnone⟩ := h
        rcases List.mem_cons.1 hk with rfl | hk2
        · simp [nodeAddress, h1, h2] at hnone
        · exact ⟨k, hk2, hnone⟩

theorem GetNodes_of_error (env : Env) (n : Node) (e : GoError)
    (hst : n.apiMasterClient.GetSystemState = .error e) :
    GetNodes env n = ⟨none, some e, [Call.GetSystemState]⟩ := by
  simp [GetNodes, hst]

theorem mem_rangeOrder (env : Env) (ks : List String) (k : String) :
    k ∈ env.rangeOrder ks ↔ k ∈ ks :=
  (env.rangeOrder_perm ks).mem_iff

theorem GetNodes_of_resolved (env : Env) (n : Node) (st : SystemState)
    (hst : n.apiMasterClient.GetSystemState = .ok st)
    (hall : ∀ k ∈ nodeNames st, ∃ a, nodeAddress env n k = some a) :
    ∃ ret, GetNodes env n
        = ⟨some ret, none, Call.GetSystemState ::
            (env.rangeOrder (mapKeys (nodesOfState st))).map Call.LookupNode⟩
      ∧ mapKeys ret = mapKeys (nodesOfState st)
      ∧ ∀ k info, mapGet ret k = some info →
          info = { nodeView (nodesOfState st) k with Address := info.Address }
          ∧ nodeAddress env n k = some info.Address := by
  have hkeys : ∀ k ∈ env.rangeOrder (mapKeys (nodesOfState st)),
      ∃ a, nodeAddress env n k = some a := by
    intro k hk
    apply hall
    rw [← mem_mapKeys_nodesOfState]
    exact (mem_rangeOrder env _ k).1 hk
  obtain ⟨ret, h1, h2, h3⟩ :=
    nodesLookup_ok env n (env.rangeOrder (mapKeys (nodesOfState st))) (nodesOfState st)
      [Call.GetSystemState] hkeys
  refine ⟨ret, ?_, h2, ?_⟩
  · simp only [GetNodes, hst, h1, List.singleton_append]
  · intro k info hinfo
    have hk : k ∈ mapKeys (nodesOfState st) := by
      rw [← h2]
      exact (mapGet_isSome_iff ret k).1 ⟨info, hinfo⟩
    have hk2 : k ∈ env.rangeOrder (mapKeys (nodesOfState st)) := (mem_rangeOrder env _ k).2 hk
    obtain ⟨a, ha⟩ := hkeys k hk2
    rw [h3 k, mapGet_eq_some_nodeView _ k hk] at hinfo
    simp only [Option.map_some', hk2, if_true, ha, Option.getD_some, Option.some.injEq] at hinfo
    subst hinfo
    exact ⟨rfl, ha⟩

theorem GetNodes_of_unresolved (env : Env) (n : Node) (st : SystemState)
    (hst : n.apiMasterClient.GetSystemState = .ok st)
    (hsome : ∃ k ∈ nodeNames st, nodeAddress env n k = none) :
    (GetNodes env n).val = none ∧ ∃ e, (GetNodes env n).err = some e := by
  simp only [GetNodes, hst]
  apply nodesLookup_fail
  obtain ⟨k, hk, hnone⟩ := hsome
  refine ⟨k, ?_, hnone⟩
  rw [mem_rangeOrder, mem_mapKeys_nodesOfState]
  exact hk

theorem GetNodes_val_some (env : Env) (n : Node) (st : SystemState) (ret : GoMap InfoNode)
    (hst : n.apiMasterClient.GetSystemState = .ok st)
    (hret : (GetNodes env n).val = some ret) :
    mapKeys ret = mapKeys (nodesOfState st)
      ∧ ∀ k info, mapGet ret k = some info →
          info = { nodeView (nodesOfState st) k with Address := info.Address }
          ∧ nodeAddress env n k = some info.Address := by
  by_cases hall : ∀ k ∈ nodeNames st, ∃ a, nodeAddress env n k = some a
  · obtain ⟨ret2, h1, h2, h3⟩ := GetNodes_of_resolved env n st hst hall
    rw [h1] at hret
    simp only [Option.some.injEq] at hret
    subst hret
    exact ⟨h2, h3⟩
  · have hsome : ∃ k ∈ nodeNames st, nodeAddress env n k = none := by
      by_contra hcon
      apply hall
      intro k hk
      cases hn : nodeAddress env n k with
      | none => exact absurd ⟨k, hk, hn⟩ hcon
      | some a => exact ⟨a, rfl⟩
    rw [(GetNodes_of_unresolved env n st hst hsome).1] at hret
    cases hret

/-! ## Lemmas on a loop that updates one entry of a map -/

theorem mapKeys_foldl_mapModify {V : Type} (upd : String → V → V) (name : String)
    (nodes : List String) (ret : GoMap V) :
    mapKeys (nodes.foldl (fun ret node => mapModify ret name (upd node)) ret) = mapKeys ret := by
  induction nodes generalizing ret with
  | nil => rfl
  | cons a nodes ih => rw [List.foldl_cons, ih, mapKeys_mapModify]

theorem mapGet_foldl_mapModify {V : Type} (upd : String → V → V) (name : String)
    (nodes : List String) (ret : GoMap V) (k : String) :
    mapGet (nodes.foldl (fun ret node => mapModify ret name (upd node)) ret) k
      = if name = k then (mapGet ret k).map (fun v => nodes.foldl (fun v node => upd node v) v)
        else mapGet ret k := by
  induction nodes generalizing ret with
  | nil =>
    by_cases h : name = k
    · cases hg : mapGet ret k <;> simp [h, hg]
    · simp [h]
  | cons a nodes ih =>
    rw [List.foldl_cons, ih, mapGet_mapModify]
    by_cases h : name = k
    · cases hg : mapGet ret k <;> simp [h]
    · simp [h]

theorem mem_foldl_setAdd (nodes : List String) (s : List String) (x : String) :
    x ∈ nodes.foldl setAdd s ↔ x ∈ s ∨ x ∈ nodes := by
  induction nodes generalizing s with
  | nil => simp
  | cons a nodes ih =>
    rw [List.foldl_cons, ih, mem_setAdd, List.mem_cons]
    tauto

theorem nodup_foldl_setAdd (nodes : List String) (s : List String) (h : s.Nodup) :
    (nodes.foldl setAdd s).Nodup := by
  induction nodes generalizing s with
  | nil => exact h
  | cons a nodes ih =>
    rw [List.foldl_cons]
    exact ih _ (nodup_setAdd s a h)

theorem mem_addNodesOf (entries : List SystemStateEntry) (name : String) (s : List String)
    (x : String) :
    x ∈ addNodesOf entries name s ↔ x ∈ s ∨ ∃ e ∈ entries, e.Name = name ∧ x ∈ e.Nodes := by
  unfold addNodesOf
  induction entries generalizing s with
  | nil => simp
  | cons e entries ih =>
    rw [List.foldl_cons, ih]
    simp only [List.mem_cons, exists_eq_or_imp]
    by_cases h : e.Name = name
    · simp only [h, if_true, mem_foldl_setAdd, true_and]
      tauto
    · simp only [h, if_false, false_and, false_or]

theorem nodup_addNodesOf (entries : List SystemStateEntry) (name : String) (s : List String)
    (h : s.Nodup) : (addNodesOf entries name s).Nodup := by
  unfold addNodesOf
  induction entries generalizing s with
  | nil => exact h
  | cons e entries ih =>
    rw [List.foldl_cons]
    apply ih
    by_cases h2 : e.Name = name
    · simp only [h2, if_true]
      exact nodup_foldl_setAdd e.Nodes s h
    · simpa only [h2, if_false] using h

/-! ## Lemmas on the loops of GetTopics -/

theorem mapGet_topicsSeed (types : List TopicType) (ret : GoMap InfoTopic) (k : String) :
    mapGet (topicsSeed types ret) k
      = match declaredType types k with
        | some typ => some { Typ := typ, Publishers := [], Subscribers := [] }
        | none => mapGet ret k := by
  unfold topicsSeed
  induction types generalizing ret with
  | nil => simp [declaredType]
  | cons t types ih =>
    rw [List.foldl_cons, ih]
    simp only [declaredType]
    cases declaredType types k with
    | some typ => rfl
    | none =>
      simp only [mapGet_mapSet]
      by_cases h : t.Name = k <;> simp [h]

theorem declaredType_isSome_iff (types : List TopicType) (k : String) :
    (∃ typ, declaredType types k = some typ) ↔ ∃ t ∈ types, t.Name = k := by
  induction types with
  | nil => simp [declaredType]
  | cons t types ih =>
    simp only [declaredType, List.mem_cons, exists_eq_or_imp]
    cases h : declaredType types k with
    | some typ =>
      have : ∃ t ∈ types, t.Name = k := ih.1 ⟨typ, h⟩
      simp only [Option.some.injEq, exists_eq', true_iff]
      exact Or.inr this
    | none =>
      have hno : ¬ ∃ t ∈ types, t.Name = k := by
        intro hex
        obtain ⟨typ, htyp⟩ := ih.2 hex
        rw [h] at htyp
        cases htyp
      by_cases h2 : t.Name = k
      · simp [h2]
      · simp only [h2, if_false, false_or]
        constructor
        · rintro ⟨typ, htyp⟩
          cases htyp
        · intro hex
          exact absurd hex hno

theorem mem_mapKeys_topicsSeed (types : List TopicType) (k : String) :
    k ∈ mapKeys (topicsSeed types []) ↔ ∃ t ∈ types, t.Name = k := by
  rw [← mapGet_isSome_iff, mapGet_topicsSeed, ← declaredType_isSome_iff]
  cases declaredType types k <;> simp [mapGet]

theorem nodup_mapKeys_topicsSeed (types : List TopicType) (ret : GoMap InfoTopic)
    (h : (mapKeys ret).Nodup) : (mapKeys (topicsSeed types ret)).Nodup := by
  unfold topicsSeed
  induction types generalizing ret with
  | nil => exact h
  | cons t types ih =>
    rw [List.foldl_cons]
    exact ih _ (nodup_mapKeys_mapSet ret t.Name _ h)

theorem mapKeys_topicsPublished (entries : List SystemStateEntry) (ret : GoMap InfoTopic) :
    mapKeys (topicsPublished entries ret) = mapKeys ret := by
  unfold topicsPublished
  induction entries generalizing ret with
  | nil => rfl
  | cons e entries ih =>
    rw [List.foldl_cons, ih]
    cases mapGet ret e.Name with
    | none => rfl
    | some v =>
      exact mapKeys_foldl_mapModify
        (fun node info => { info with Publishers := setAdd info.Publishers node }) e.Name
        e.Nodes ret

theorem mapKeys_topicsSubscribed (entries : List SystemStateEntry) (ret : GoMap InfoTopic) :
    mapKeys (topicsSubscribed entries ret) = mapKeys ret := by
  unfold topicsSubscribed
  induction entries generalizing ret with
  | nil => rfl
  | cons e entries ih =>
    rw [List.foldl_cons, ih]
    cases mapGet ret e.Name with
    | none => rfl
    | some v =>
      exact mapKeys_foldl_mapModify
        (fun node info => { info with Subscribers := setAdd info.Subscribers node }) e.Name
        e.Nodes ret

theorem foldl_publishers (nodes : List String) (info : InfoTopic) :
    nodes.foldl (fun v node => { v with Publishers := setAdd v.Publishers node }) info
      = { info with Publishers := nodes.foldl setAdd info.Publishers } := by
  induction nodes generalizing info with
  | nil => rfl
  | cons a nodes ih => rw [List.foldl_cons, ih]; rfl

theorem foldl_subscribers (nodes : List String) (info : InfoTopic) :
    nodes.foldl (fun v node => { v with Subscribers := setAdd v.Subscribers node }) info
      = { info with Subscribers := nodes.foldl setAdd info.Subscribers } := by
  induction nodes generalizing info with
  | nil => rfl
  | cons a nodes ih => rw [List.foldl_cons, ih]; rfl

theorem mapGet_topicsPublished (entries : List SystemStateEntry) (ret : GoMap InfoTopic)
    (k : String) :
    mapGet (topicsPublished entries ret) k
      = (mapGet ret k).map (fun info =>
          { info with Publishers := addNodesOf entries k info.Publishers }) := by
  unfold topicsPublished addNodesOf
  induction entries generalizing ret with
  | nil =>
    simp only [List.foldl_nil]
    cases hg : mapGet ret k <;> simp
  | cons e entries ih =>
    rw [List.foldl_cons, ih]
    cases h : mapGet ret e.Name with
    | none =>
      by_cases h2 : e.Name = k
      · subst h2
        simp [h]
      · simp [h2]
    | some v =>
      simp only [mapGet_foldl_mapModify
        (fun node (info : InfoTopic) => { info with Publishers := setAdd info.Publishers node })]
      by_cases h2 : e.Name = k
      · subst h2
        simp [h, foldl_publishers]
      · simp [h2]

theorem mapGet_topicsSubscribed (entries : List SystemStateEntry) (ret : GoMap InfoTopic)
    (k : String) :
    mapGet (topicsSubscribed entries ret) k
      = (mapGet ret k).map (fun info =>
          { info with Subscribers := addNodesOf entries k info.Subscribers }) := by
  unfold topicsSubscribed addNodesOf
  induction entries generalizing ret with
  | nil =>
    simp only [List.foldl_nil]
    cases hg : mapGet ret k <;> simp
  | cons e entries ih =>
    rw [List.foldl_cons, ih]
    cases h : mapGet ret e.Name with
    | none =>
      by_cases h2 : e.Name = k
      · subst h2
        simp [h]
      · simp [h2]
    | some v =>
      simp only [mapGet_foldl_mapModify
        (fun node (info : InfoTopic) => { info with Subscribers := setAdd info.Subscribers node })]
      by_cases h2 : e.Name = k
      · subst h2
        simp [h, foldl_subscribers]
      · simp [h2]

/-! ## GetNodes: the node set and the three sets of a node -/

/-- C1: when `GetSystemState` succeeds with the state `st` and every node name of `st`
is looked up and resolved successfully, `GetNodes` succeeds, and the keys of its map are
exactly the node names that occur in a `Nodes` list of `PublishedTopics`,
`SubscribedTopics` or `ProvidedServices`: no key occurs twice, every such name is a key
(a node that only provides a service included), and there is no other key. -/
theorem GetNodes_keys (env : Env) (n : Node) (st : SystemState)
    (hst : n.apiMasterClient.GetSystemState = .ok st)
    (hall : ∀ k ∈ nodeNames st, (nodeAddress env n k).isSome = true) :
    ∃ ret, (GetNodes env n).val = some ret ∧ (GetNodes env n).err = none
      ∧ (mapKeys ret).Nodup
      ∧ (∀ k, k ∈ mapKeys ret ↔
          (∃ e ∈ st.PublishedTopics, k ∈ e.Nodes) ∨ (∃ e ∈ st.SubscribedTopics, k ∈ e.Nodes)
            ∨ (∃ e ∈ st.ProvidedServices, k ∈ e.Nodes))
      ∧ (∀ e ∈ st.ProvidedServices, ∀ k ∈ e.Nodes, (mapKeys ret).count k = 1) := by
  have hall2 : ∀ k ∈ nodeNames st, ∃ a, nodeAddress env n k = some a := fun k hk =>
    Option.isSome_iff_exists.1 (hall k hk)
  obtain ⟨ret, h1, h2, _⟩ := GetNodes_of_resolved env n st hst hall2
  have hnodup : (mapKeys ret).Nodup := by
    rw [h2]
    exact nodup_mapKeys_nodesOfState st
  have hmem : ∀ k, k ∈ mapKeys ret ↔
      (∃ e ∈ st.PublishedTopics, k ∈ e.Nodes) ∨ (∃ e ∈ st.SubscribedTopics, k ∈ e.Nodes)
        ∨ (∃ e ∈ st.ProvidedServices, k ∈ e.Nodes) := by
    intro k
    rw [h2, mem_mapKeys_nodesOfState, mem_nodeNames]
  refine ⟨ret, by rw [h1], by rw [h1], hnodup, hmem, ?_⟩
  intro e he k hk
  exact List.count_eq_one_of_mem hnodup ((hmem k).2 (Or.inr (Or.inr ⟨e, he, hk⟩)))

/-- C1, at the state `exState`: the keys are `/lidar`, `/nav` and `/only`. -/
theorem GetNodes_keys_witness :
    exNode.apiMasterClient.GetSystemState = .ok exState
      ∧ (∀ k ∈ nodeNames exState, (nodeAddress exEnv exNode k).isSome = true)
      ∧ ∃ ret, (GetNodes exEnv exNode).val = some ret ∧ (GetNodes exEnv exNode).err = none
        ∧ (mapKeys ret).Nodup
        ∧ (∀ k, k ∈ mapKeys ret ↔
            (∃ e ∈ exState.PublishedTopics, k ∈ e.Nodes)
              ∨ (∃ e ∈ exState.SubscribedTopics, k ∈ e.Nodes)
              ∨ (∃ e ∈ exState.ProvidedServices, k ∈ e.Nodes))
        ∧ (∀ e ∈ exState.ProvidedServices, ∀ k ∈ e.Nodes, (mapKeys ret).count k = 1) :=
  ⟨rfl, by decide, GetNodes_keys exEnv exNode exState rfl (by decide)⟩

/-- C2: when `GetNodes` succeeds on the state `st`, the record `info` of a node `k` of
the result holds, as sets without repetition, in `PublishedTopics` exactly the names of
the entries of `st.PublishedTopics` whose `Nodes` list contains `k`, in
`SubscribedTopics` exactly those of `st.SubscribedTopics`, and in `ProvidedServices`
exactly those of `st.ProvidedServices`; a category in which `k` does not occur gives
the empty set. -/
theorem GetNodes_sets (env : Env) (n : Node) (st : SystemState) (ret : GoMap InfoNode)
    (k : String) (info : InfoNode)
    (hst : n.apiMasterClient.GetSystemState = .ok st)
    (hret : (GetNodes env n).val = some ret) (hk : mapGet ret k = some info) :
    (info.PublishedTopics.Nodup
        ∧ ∀ x, x ∈ info.PublishedTopics ↔ ∃ e ∈ st.PublishedTopics, e.Name = x ∧ k ∈ e.Nodes)
      ∧ (info.SubscribedTopics.Nodup
        ∧ ∀ x, x ∈ info.SubscribedTopics ↔ ∃ e ∈ st.SubscribedTopics, e.Name = x ∧ k ∈ e.Nodes)
      ∧ (info.ProvidedServices.Nodup
        ∧ ∀ x, x ∈ info.ProvidedServices ↔ ∃ e ∈ st.ProvidedServices, e.Name = x ∧ k ∈ e.Nodes)
      ∧ ((∀ e ∈ st.PublishedTopics, k ∉ e.Nodes) → info.PublishedTopics = [])
      ∧ ((∀ e ∈ st.SubscribedTopics, k ∉ e.Nodes) → info.SubscribedTopics = [])
      ∧ ((∀ e ∈ st.ProvidedServices, k ∉ e.Nodes) → info.ProvidedServices = []) := by
  obtain ⟨hinfo, _⟩ := (GetNodes_val_some env n st ret hst hret).2 k info hk
  have hp : info.PublishedTopics = (nodeView (nodesOfState st) k).PublishedTopics := by
    rw [hinfo]
  have hs : info.SubscribedTopics = (nodeView (nodesOfState st) k).SubscribedTopics := by
    rw [hinfo]
  have hv : info.ProvidedServices = (nodeView (nodesOfState st) k).ProvidedServices := by
    rw [hinfo]
  obtain ⟨n1, n2, n3⟩ := nodup_fields_nodesOfState st k
  have m1 : ∀ x, x ∈ info.PublishedTopics ↔
      ∃ e ∈ st.PublishedTopics, e.Name = x ∧ k ∈ e.Nodes := by
    intro x
    rw [hp, mem_published_nodesOfState, mem_namesWith]
  have m2 : ∀ x, x ∈ info.SubscribedTopics ↔
      ∃ e ∈ st.SubscribedTopics, e.Name = x ∧ k ∈ e.Nodes := by
    intro x
    rw [hs, mem_subscribed_nodesOfState, mem_namesWith]
  have m3 : ∀ x, x ∈ info.ProvidedServices ↔
      ∃ e ∈ st.ProvidedServices, e.Name = x ∧ k ∈ e.Nodes := by
    intro x
    rw [hv, mem_provided_nodesOfState, mem_namesWith]
  refine ⟨⟨hp ▸ n1, m1⟩, ⟨hs ▸ n2, m2⟩, ⟨hv ▸ n3, m3⟩, ?_, ?_, ?_⟩
  · intro h
    apply List.eq_nil_iff_forall_not_mem.2
    intro x hx
    obtain ⟨e, he, _, hke⟩ := (m1 x).1 hx
    exact h e he hke
  · intro h
    apply List.eq_nil_iff_forall_not_mem.2
    intro x hx
    obtain ⟨e, he, _, hke⟩ := (m2 x).1 hx
    exact h e he hke
  · intro h
    apply List.eq_nil_iff_forall_not_mem.2
    intro x hx
    obtain ⟨e, he, _, hke⟩ := (m3 x).1 hx
    exact h e he hke

/-- C2, at the node `/only` of the examples, which only provides the service `/srv`. -/
theorem GetNodes_sets_witness :
    (exNode.apiMasterClient.GetSystemState = .ok exState
      ∧ (GetNodes exEnv exNode).val = some exNodes
      ∧ mapGet exNodes "/only" = some ⟨[], [], ["/srv"], "a:3"⟩)
    ∧ (([] : List String).Nodup
        ∧ ∀ x, x ∈ ([] : List String) ↔
            ∃ e ∈ exState.PublishedTopics, e.Name = x ∧ "/only" ∈ e.Nodes)
      ∧ (([] : List String).Nodup
        ∧ ∀ x, x ∈ ([] : List String) ↔
            ∃ e ∈ exState.SubscribedTopics, e.Name = x ∧ "/only" ∈ e.Nodes)
      ∧ (["/srv"].Nodup
        ∧ ∀ x, x ∈ ["/srv"] ↔ ∃ e ∈ exState.ProvidedServices, e.Name = x ∧ "/only" ∈ e.Nodes)
      ∧ ((∀ e ∈ exState.PublishedTopics, "/only" ∉ e.Nodes) → ([] : List String) = [])
      ∧ ((∀ e ∈ exState.SubscribedTopics, "/only" ∉ e.Nodes) → ([] : List String) = [])
      ∧ ((∀ e ∈ exState.ProvidedServices, "/only" ∉ e.Nodes) → ["/srv"] = []) :=
  ⟨⟨rfl, by decide, by decide⟩,
    GetNodes_sets exEnv exNode exState exNodes "/only" ⟨[], [], ["/srv"], "a:3"⟩ rfl
      (by decide) (by decide)⟩

/-! ## GetNodes: failure is atomic -/

/-- C9: `GetNodes` returns the `nil` map and an error when `GetSystemState` fails, and
when, for a node name of the state, `LookupNode` fails or `urlToAddress` fails on the URL
it returns; when `GetSystemState` succeeds and every node name of the state is looked up
and resolved, `GetNodes` returns a map and no error, and the `Address` of every node of
the map is the resolved address of the URL that `LookupNode` returns for it. -/
theorem GetNodes_atomic (env : Env) (n : Node) :
    (∀ e, n.apiMasterClient.GetSystemState = .error e →
        (GetNodes env n).val = none ∧ (GetNodes env n).err = some e)
    ∧ (∀ st, n.apiMasterClient.GetSystemState = .ok st →
        (∃ k ∈ nodeNames st, (∃ e, n.apiMasterClient.LookupNode k = .error e)
          ∨ ∃ url e, n.apiMasterClient.LookupNode k = .ok url ∧ env.urlToAddress url = .error e) →
        (GetNodes env n).val = none ∧ ∃ e, (GetNodes env n).err = some e)
    ∧ (∀ st, n.apiMasterClient.GetSystemState = .ok st →
        (∀ k ∈ nodeNames st, ∃ url address,
          n.apiMasterClient.LookupNode k = .ok url ∧ env.urlToAddress url = .ok address) →
        ∃ ret, (GetNodes env n).val = some ret ∧ (GetNodes env n).err = none
          ∧ (∀ k ∈ nodeNames st, ∃ info, mapGet ret k = some info)
          ∧ ∀ k info, mapGet ret k = some info →
              ∃ url, n.apiMasterClient.LookupNode k = .ok url
                ∧ env.urlToAddress url = .ok info.Address) := by
  refine ⟨?_, ?_, ?_⟩
  · intro e he
    rw [GetNodes_of_error env n e he]
    exact ⟨rfl, rfl⟩
  · rintro st hst ⟨k, hk, hfail⟩
    exact GetNodes_of_unresolved env n st hst
      ⟨k, hk, (nodeAddress_eq_none_iff env n k).2 hfail⟩
  · intro st hst hall
    have hall2 : ∀ k ∈ nodeNames st, ∃ a, nodeAddress env n k = some a := by
      intro k hk
      obtain ⟨url, a, h1, h2⟩ := hall k hk
      exact ⟨a, (nodeAddress_eq_some_iff env n k a).2 ⟨url, h1, h2⟩⟩
    obtain ⟨ret, h1, h2, h3⟩ := GetNodes_of_resolved env n st hst hall2
    refine ⟨ret, by rw [h1], by rw [h1], ?_, ?_⟩
    · intro k hk
      apply (mapGet_isSome_iff ret k).2
      rw [h2, mem_mapKeys_nodesOfState]
      exact hk
    · intro k info hinfo
      exact (nodeAddress_eq_some_iff env n k info.Address).1 (h3 k info hinfo).2

/-- C9, at the examples: a master that is down, a master that does not know the node
`/nav`, and a master that answers every lookup. -/
theorem GetNodes_atomic_witness :
    ((GetNodes exEnv exNodeDown).val = none
        ∧ (GetNodes exEnv exNodeDown).err = some "connection refused")
    ∧ ((GetNodes exEnv exNodeNoNav).val = none ∧ ∃ e, (GetNodes exEnv exNodeNoNav).err = some e)
    ∧ (∃ ret, (GetNodes exEnv exNode).val = some ret ∧ (GetNodes exEnv exNode).err = none
        ∧ (∀ k ∈ nodeNames exState, ∃ info, mapGet ret k = some info)
        ∧ ∀ k info, mapGet ret k = some info →
            ∃ url, exNode.apiMasterClient.LookupNode k = .ok url
              ∧ exEnv.urlToAddress url = .ok info.Address) :=
  ⟨(GetNodes_atomic exEnv exNodeDown).1 "connection refused" rfl,
    (GetNodes_atomic exEnv exNodeNoNav).2.1 exState rfl
      ⟨"/nav", by decide, Or.inl ⟨"unknown node", rfl⟩⟩,
    (GetNodes_atomic exEnv exNode).2.2 exState rfl (by
      intro k hk
      have hk2 : k = "/lidar" ∨ k = "/nav" ∨ k = "/only" := by
        simpa [nodeNames, nodesIn, exState, or_comm, or_left_comm] using hk
      rcases hk2 with rfl | rfl | rfl
      · exact ⟨"http://a:1", "a:1", rfl, rfl⟩
      · exact ⟨"http://b:2", "b:2", rfl, rfl⟩
      · exact ⟨"http://a:3", "a:3", rfl, rfl⟩)⟩

/-! ## GetTopics -/

theorem declaredType_mem (types : List TopicType) (k typ : String)
    (h : declaredType types k = some typ) : ∃ t ∈ types, t.Name = k ∧ t.Typ = typ := by
  induction types with
  | nil => simp [declaredType] at h
  | cons t types ih =>
    simp only [declaredType] at h
    cases h2 : declaredType types k with
    | some typ2 =>
      rw [h2] at h
      simp only [Option.some.injEq] at h
      subst h
      obtain ⟨u, hu, hname, htyp⟩ := ih h2
      exact ⟨u, List.mem_cons_of_mem t hu, hname, htyp⟩
    | none =>
      rw [h2] at h
      by_cases h3 : t.Name = k
      · simp only [h3, if_true, Option.some.injEq] at h
        exact ⟨t, List.mem_cons_self t types, h3, h⟩
      · simp [h3] at h

/-- C3: when `GetSystemState` and `GetTopicTypes` succeed, `GetTopics` succeeds, and the
keys of its map are exactly the topic names of the type snapshot, each once; a topic of
the state that the type snapshot omits is not a key, and it causes no failure. -/
theorem GetTopics_keys (n : Node) (st : SystemState) (types : List TopicType)
    (hst : n.apiMasterClient.GetSystemState = .ok st)
    (hty : n.apiMasterClient.GetTopicTypes = .ok types) :
    ∃ ret, (GetTopics n).val = some ret ∧ (GetTopics n).err = none
      ∧ (mapKeys ret).Nodup
      ∧ (∀ k, k ∈ mapKeys ret ↔ ∃ t ∈ types, t.Name = k)
      ∧ (∀ e ∈ st.PublishedTopics ++ st.SubscribedTopics,
          (∀ t ∈ types, t.Name ≠ e.Name) → e.Name ∉ mapKeys ret) := by
  have hmem : ∀ k, k ∈ mapKeys (topicsSubscribed st.SubscribedTopics
      (topicsPublished st.PublishedTopics (topicsSeed types []))) ↔ ∃ t ∈ types, t.Name = k := by
    intro k
    rw [mapKeys_topicsSubscribed, mapKeys_topicsPublished, mem_mapKeys_topicsSeed]
  refine ⟨_, by simp only [GetTopics, hst, hty], by simp only [GetTopics, hst, hty], ?_, hmem, ?_⟩
  · rw [mapKeys_topicsSubscribed, mapKeys_topicsPublished]
    exact nodup_mapKeys_topicsSeed types [] (by simp [mapKeys])
  · intro e _ hno hin
    obtain ⟨t, ht, hname⟩ := (hmem e.Name).1 hin
    exact hno t ht hname

/-- C3, at the examples: `/tf` has a publisher and no declared type. -/
theorem GetTopics_keys_witness :
    (exNode.apiMasterClient.GetSystemState = .ok exState
      ∧ exNode.apiMasterClient.GetTopicTypes = .ok exTypes)
    ∧ ∃ ret, (GetTopics exNode).val = some ret ∧ (GetTopics exNode).err = none
      ∧ (mapKeys ret).Nodup
      ∧ (∀ k, k ∈ mapKeys ret ↔ ∃ t ∈ exTypes, t.Name = k)
      ∧ (∀ e ∈ exState.PublishedTopics ++ exState.SubscribedTopics,
          (∀ t ∈ exTypes, t.Name ≠ e.Name) → e.Name ∉ mapKeys ret) :=
  ⟨⟨rfl, rfl⟩, GetTopics_keys exNode exState exTypes rfl rfl⟩

/-- C4: when `GetTopics` succeeds on the state `st` and the type snapshot `types`, the
record `info` of a topic `k` of the result has the type that `types` declares for `k`
(that of an entry of `types` named `k`, the last one), its `Publishers` are, as a set
without repetition, exactly the nodes of the entries of `st.PublishedTopics` named `k`,
and its `Subscribers` exactly the nodes of the entries of `st.SubscribedTopics` named
`k`; a set is empty when the state has no such entry. -/
theorem GetTopics_entries (n : Node) (st : SystemState) (types : List TopicType)
    (ret : GoMap InfoTopic) (k : String) (info : InfoTopic)
    (hst : n.apiMasterClient.GetSystemState = .ok st)
    (hty : n.apiMasterClient.GetTopicTypes = .ok types)
    (hret : (GetTopics n).val = some ret) (hk : mapGet ret k = some info) :
    declaredType types k = some info.Typ
      ∧ (∃ t ∈ types, t.Name = k ∧ t.Typ = info.Typ)
      ∧ (info.Publishers.Nodup
        ∧ ∀ x, x ∈ info.Publishers ↔ ∃ e ∈ st.PublishedTopics, e.Name = k ∧ x ∈ e.Nodes)
      ∧ (info.Subscribers.Nodup
        ∧ ∀ x, x ∈ info.Subscribers ↔ ∃ e ∈ st.SubscribedTopics, e.Name = k ∧ x ∈ e.Nodes)
      ∧ ((∀ e ∈ st.PublishedTopics, e.Name ≠ k) → info.Publishers = [])
      ∧ ((∀ e ∈ st.SubscribedTopics, e.Name ≠ k) → info.Subscribers = []) := by
  simp only [GetTopics, hst, hty, Option.some.injEq] at hret
  subst hret
  rw [mapGet_topicsSubscribed, mapGet_topicsPublished, mapGet_topicsSeed] at hk
  cases hd : declaredType types k with
  | none => simp [hd, mapGet] at hk
  | some typ =>
    simp only [hd, Option.map_some', Option.some.injEq] at hk
    subst hk
    have m1 : ∀ x, x ∈ addNodesOf st.PublishedTopics k [] ↔
        ∃ e ∈ st.PublishedTopics, e.Name = k ∧ x ∈ e.Nodes := by
      intro x
      rw [mem_addNodesOf]
      simp
    have m2 : ∀ x, x ∈ addNodesOf st.SubscribedTopics k [] ↔
        ∃ e ∈ st.SubscribedTopics, e.Name = k ∧ x ∈ e.Nodes := by
      intro x
      rw [mem_addNodesOf]
      simp
    refine ⟨rfl, declaredType_mem types k typ hd,
      ⟨nodup_addNodesOf _ _ _ List.nodup_nil, m1⟩, ⟨nodup_addNodesOf _ _ _ List.nodup_nil, m2⟩,
      ?_, ?_⟩
    · intro h
      apply List.eq_nil_iff_forall_not_mem.2
      intro x hx
      obtain ⟨e, he, hname, _⟩ := (m1 x).1 hx
      exact h e he hname
    · intro h
      apply List.eq_nil_iff_forall_not_mem.2
      intro x hx
      obtain ⟨e, he, hname, _⟩ := (m2 x).1 hx
      exact h e he hname

/-- C4, at the topic `/scan` of the examples. -/
theorem GetTopics_entries_witness :
    (exNode.apiMasterClient.GetSystemState = .ok exState
      ∧ exNode.apiMasterClient.GetTopicTypes = .ok exTypes
      ∧ (GetTopics exNode).val = some exTopics
      ∧ mapGet exTopics "/scan"
          = some ⟨"sensor_msgs/LaserScan", ["/lidar"], ["/nav", "/lidar"]⟩)
    ∧ declaredType exTypes "/scan" = some "sensor_msgs/LaserScan"
      ∧ (∃ t ∈ exTypes, t.Name = "/scan" ∧ t.Typ = "sensor_msgs/LaserScan")
      ∧ (["/lidar"].Nodup
        ∧ ∀ x, x ∈ ["/lidar"] ↔ ∃ e ∈ exState.PublishedTopics, e.Name = "/scan" ∧ x ∈ e.Nodes)
      ∧ (["/nav", "/lidar"].Nodup
        ∧ ∀ x, x ∈ ["/nav", "/lidar"] ↔
            ∃ e ∈ exState.SubscribedTopics, e.Name = "/scan" ∧ x ∈ e.Nodes)
      ∧ ((∀ e ∈ exState.PublishedTopics, e.Name ≠ "/scan") → ["/lidar"] = [])
      ∧ ((∀ e ∈ exState.SubscribedTopics, e.Name ≠ "/scan") → ["/nav", "/lidar"] = []) :=
  ⟨⟨rfl, rfl, by decide, by decide⟩,
    GetTopics_entries exNode exState exTypes exTopics "/scan"
      ⟨"sensor_msgs/LaserScan", ["/lidar"], ["/nav", "/lidar"]⟩ rfl rfl (by decide) (by decide)⟩

/-! ## Lemmas on the loop of GetServices -/

theorem foldl_providers (nodes : List String) (info : InfoService) :
    nodes.foldl (fun v node => { v with Providers := setAdd v.Providers node }) info
      = { info with Providers := nodes.foldl setAdd info.Providers } := by
  induction nodes generalizing info with
  | nil => rfl
  | cons a nodes ih => rw [List.foldl_cons, ih]; rfl

theorem mem_mapKeys_servicesProviders (entry : SystemStateEntry) (ret : GoMap InfoService)
    (k : String) :
    k ∈ mapKeys (servicesProviders entry ret) ↔ k ∈ mapKeys ret ∨ k = entry.Name := by
  unfold servicesProviders
  rw [mapKeys_foldl_mapModify
    (fun node (info : InfoService) => { info with Providers := setAdd info.Providers node })]
  cases h : mapGet ret entry.Name with
  | some v =>
    have hn : entry.Name ∈ mapKeys ret := (mapGet_isSome_iff ret entry.Name).1 ⟨v, h⟩
    constructor
    · exact Or.inl
    · rintro (hk | rfl)
      · exact hk
      · exact hn
  | none => exact mem_mapKeys_mapSet ret entry.Name _ k

theorem nodup_mapKeys_servicesProviders (entry : SystemStateEntry) (ret : GoMap InfoService)
    (h : (mapKeys ret).Nodup) : (mapKeys (servicesProviders entry ret)).Nodup := by
  unfold servicesProviders
  rw [mapKeys_foldl_mapModify
    (fun node (info : InfoService) => { info with Providers := setAdd info.Providers node })]
  cases mapGet ret entry.Name with
  | some v => exact h
  | none => exact nodup_mapKeys_mapSet ret entry.Name _ h

theorem mapGet_servicesProviders (entry : SystemStateEntry) (ret : GoMap InfoService)
    (k : String) :
    mapGet (servicesProviders entry ret) k
      = if entry.Name = k then
          some { (mapGet ret k).getD newInfoService with
            Providers := entry.Nodes.foldl setAdd ((mapGet ret k).getD newInfoService).Providers }
        else mapGet ret k := by
  unfold servicesProviders
  rw [mapGet_foldl_mapModify
    (fun node (info : InfoService) => { info with Providers := setAdd info.Providers node })]
  by_cases h : entry.Name = k
  · subst h
    cases hg : mapGet ret entry.Name with
    | some v => simp [hg, foldl_providers]
    | none => simp [hg, mapGet_mapSet, foldl_providers, newInfoService]
  · simp only [h, if_false]
    cases hg : mapGet ret entry.Name with
    | some v => rfl
    | none => simp [mapGet_mapSet, h]

theorem addNodesOf_cons (e : SystemStateEntry) (entries : List SystemStateEntry)
    (name : String) (s : List String) :
    addNodesOf (e :: entries) name s
      = addNodesOf entries name (if e.Name = name then e.Nodes.foldl setAdd s else s) := rfl

theorem addNodesOf_of_no_entry (entries : List SystemStateEntry) (name : String)
    (s : List String) (h : ∀ e ∈ entries, e.Name ≠ name) : addNodesOf entries name s = s := by
  induction entries generalizing s with
  | nil => rfl
  | cons e entries ih =>
    rw [addNodesOf_cons, ih _ (fun e2 he2 => h e2 (List.mem_cons_of_mem e he2))]
    simp [h e (List.mem_cons_self e entries)]

theorem serviceAddress_eq_some_iff (env : Env) (n : Node) (k address : String) :
    serviceAddress env n k = some address
      ↔ ∃ url, n.apiMasterClient.LookupService k = .ok url
          ∧ env.urlToAddress url = .ok address := by
  unfold serviceAddress
  cases h1 : n.apiMasterClient.LookupService k with
  | error e => simp
  | ok url =>
    cases h2 : env.urlToAddress url with
    | error e => simp [h2]
    | ok a => simp [h2]

theorem serviceAddress_eq_none_iff (env : Env) (n : Node) (k : String) :
    serviceAddress env n k = none
      ↔ (∃ e, n.apiMasterClient.LookupService k = .error e)
        ∨ ∃ url e, n.apiMasterClient.LookupService k = .ok url
            ∧ env.urlToAddress url = .error e := by
  unfold serviceAddress
  cases h1 : n.apiMasterClient.LookupService k with
  | error e => simp
  | ok url =>
    cases h2 : env.urlToAddress url with
    | error e => simp [h2]
    | ok a => simp [h2]

theorem servicesLoop_ok (env : Env) (n : Node) (entries : List SystemStateEntry)
    (ret : GoMap InfoService) (calls : List Call)
    (h : ∀ e ∈ entries, ∃ a, serviceAddress env n e.Name = some a) :
    ∃ ret2, servicesLoop env n entries ret calls
        = ⟨some ret2, none, calls ++ entries.map (fun e => Call.LookupService e.Name)⟩
      ∧ (∀ k, k ∈ mapKeys ret2 ↔ k ∈ mapKeys ret ∨ ∃ e ∈ entries, e.Name = k)
      ∧ ((mapKeys ret).Nodup → (mapKeys ret2).Nodup)
      ∧ ∀ k, mapGet ret2 k
          = if (∃ e ∈ entries, e.Name = k) then
              some { Providers :=
                      addNodesOf entries k ((mapGet ret k).getD newInfoService).Providers,
                     Address := (serviceAddress env n k).getD "" }
            else mapGet ret k := by
  induction entries generalizing ret calls with
  | nil =>
    refine ⟨ret, by simp [servicesLoop], by simp, fun hn => hn, ?_⟩
    intro k
    simp
  | cons e entries ih =>
    obtain ⟨addr, ha⟩ := h e (List.mem_cons_self e entries)
    obtain ⟨url, hurl, haddr⟩ := (serviceAddress_eq_some_iff env n e.Name addr).1 ha
    obtain ⟨ret2, h1, h2, h3, h4⟩ :=
      ih (mapModify (servicesProviders e ret) e.Name (fun info => { info with Address := addr }))
        (calls ++ [Call.LookupService e.Name]) (fun e2 he2 => h e2 (List.mem_cons_of_mem e he2))
    refine ⟨ret2, ?_, ?_, ?_, ?_⟩
    · simp only [servicesLoop, hurl, haddr, h1, List.map_cons, List.append_assoc,
        List.singleton_append]
    · intro k
      rw [h2, mapKeys_mapModify, mem_mapKeys_servicesProviders]
      simp only [List.mem_cons, exists_eq_or_imp]
      constructor
      · rintro ((hk | hk) | hk)
        · exact Or.inl hk
        · exact Or.inr (Or.inl hk.symm)
        · exact Or.inr (Or.inr hk)
      · rintro (hk | hk | hk)
        · exact Or.inl (Or.inl hk)
        · exact Or.inl (Or.inr hk.symm)
        · exact Or.inr hk
    · intro hn
      apply h3
      rw [mapKeys_mapModify]
      exact nodup_mapKeys_servicesProviders e ret hn
    · intro k
      rw [h4, mapGet_mapModify, mapGet_servicesProviders, addNodesOf_cons]
      by_cases hk : e.Name = k
      · subst hk
        by_cases hex : ∃ e2 ∈ entries, e2.Name = e.Name
        · simp [hex, ha]
        · have hno : ∀ e2 ∈ entries, e2.Name ≠ e.Name := fun e2 he2 hname =>
            hex ⟨e2, he2, hname⟩
          simp [hex, ha, addNodesOf_of_no_entry entries e.Name _ hno]
      · simp [hk]

theorem servicesLoop_fail (env : Env) (n : Node) (entries : List SystemStateEntry)
    (ret : GoMap InfoService) (calls : List Call)
    (h : ∃ e ∈ entries, serviceAddress env n e.Name = none) :
    (servicesLoop env n entries ret calls).val = none
      ∧ ∃ err, (servicesLoop env n entries ret calls).err = some err := by
  induction entries generalizing ret calls with
  | nil =>
    obtain ⟨e, he, _⟩ := h
    cases he
  | cons a entries ih =>
    cases h1 : n.apiMasterClient.LookupService a.Name with
    | error e => simp [servicesLoop, h1]
    | ok url =>
      cases h2 : env.urlToAddress url with
      | error e => simp [servicesLoop, h1, h2]
      | ok addr =>
        simp only [servicesLoop, h1, h2]
        apply ih
        obtain ⟨e, he, hnone⟩ := h
        rcases List.mem_cons.1 he with rfl | he2
        · simp [serviceAddress, h1, h2] at hnone
        · exact ⟨e, he2, hnone⟩

theorem servicesLoop_congr (env : Env) (n m : Node)
    (h : m.apiMasterClient.LookupService = n.apiMasterClient.LookupService)
    (entries : List SystemStateEntry) (ret : GoMap InfoService) (calls : List Call) :
    servicesLoop env m entries ret calls = servicesLoop env n entries ret calls := by
  induction entries generalizing ret calls with
  | nil => rfl
  | cons e entries ih => simp only [servicesLoop, h, ih]

theorem GetServices_of_resolved (env : Env) (n : Node) (st : SystemState)
    (hst : n.apiMasterClient.GetSystemState = .ok st)
    (hall : ∀ e ∈ st.ProvidedServices, ∃ a, serviceAddress env n e.Name = some a) :
    ∃ ret, GetServices env n
        = ⟨some ret, none, Call.GetSystemState ::
            st.ProvidedServices.map (fun e => Call.LookupService e.Name)⟩
      ∧ (mapKeys ret).Nodup
      ∧ (∀ k, k ∈ mapKeys ret ↔ ∃ e ∈ st.ProvidedServices, e.Name = k)
      ∧ ∀ k info, mapGet ret k = some info →
          info.Providers = addNodesOf st.ProvidedServices k []
          ∧ serviceAddress env n k = some info.Address := by
  obtain ⟨ret, h1, h2, h3, h4⟩ :=
    servicesLoop_ok env n st.ProvidedServices [] [Call.GetSystemState] hall
  refine ⟨ret, ?_, h3 (by simp [mapKeys]), ?_, ?_⟩
  · simp only [GetServices, hst, h1, List.singleton_append]
  · intro k
    rw [h2]
    simp [mapKeys]
  · intro k info hinfo
    rw [h4] at hinfo
    by_cases hex : ∃ e ∈ st.ProvidedServices, e.Name = k
    · obtain ⟨e, he, hname⟩ := hex
      obtain ⟨a, ha⟩ := hall e he
      rw [hname] at ha
      have hex2 : ∃ e ∈ st.ProvidedServices, e.Name = k := ⟨e, he, hname⟩
      simp only [hex2, if_true, Option.some.injEq, ha, Option.getD_some] at hinfo
      subst hinfo
      exact ⟨by simp [mapGet, newInfoService], ha⟩
    · simp [hex, mapGet] at hinfo

theorem GetServices_of_unresolved (env : Env) (n : Node) (st : SystemState)
    (hst : n.apiMasterClient.GetSystemState = .ok st)
    (hsome : ∃ e ∈ st.ProvidedServices, serviceAddress env n e.Name = none) :
    (GetServices env n).val = none ∧ ∃ err, (GetServices env n).err = some err := by
  simp only [GetServices, hst]
  exact servicesLoop_fail env n st.ProvidedServices [] [Call.GetSystemState] hsome

/-! ## GetServices -/

/-- C5: when `GetServices` succeeds on the state `st`, the keys of its map are exactly
the names of the entries of `st.ProvidedServices`, each once; the `Address` of a service
`k` of the map is `urlToAddress` applied to the URL that `LookupService k` returns, and
its `Providers` are, as a set without repetition, exactly the nodes of the entries of
`st.ProvidedServices` named `k`. The answers of `LookupNode` play no part: `GetServices`
returns the same on a master that differs in `LookupNode` only. -/
theorem GetServices_entries (env : Env) (n : Node) (st : SystemState)
    (ret : GoMap InfoService)
    (hst : n.apiMasterClient.GetSystemState = .ok st)
    (hret : (GetServices env n).val = some ret) :
    (mapKeys ret).Nodup
      ∧ (∀ k, k ∈ mapKeys ret ↔ ∃ e ∈ st.ProvidedServices, e.Name = k)
      ∧ (∀ k info, mapGet ret k = some info →
          (∃ url, n.apiMasterClient.LookupService k = .ok url
            ∧ env.urlToAddress url = .ok info.Address)
          ∧ info.Providers.Nodup
          ∧ ∀ x, x ∈ info.Providers ↔ ∃ e ∈ st.ProvidedServices, e.Name = k ∧ x ∈ e.Nodes)
      ∧ ∀ look : String → Except GoError String,
          GetServices env { n with apiMasterClient := { n.apiMasterClient with LookupNode := look } }
            = GetServices env n := by
  have hall : ∀ e ∈ st.ProvidedServices, ∃ a, serviceAddress env n e.Name = some a := by
    by_contra hcon
    have hsome : ∃ e ∈ st.ProvidedServices, serviceAddress env n e.Name = none := by
      by_contra hcon2
      apply hcon
      intro e he
      cases hn : serviceAddress env n e.Name with
      | none => exact absurd ⟨e, he, hn⟩ hcon2
      | some a => exact ⟨a, rfl⟩
    rw [(GetServices_of_unresolved env n st hst hsome).1] at hret
    cases hret
  obtain ⟨ret2, h1, h2, h3, h4⟩ := GetServices_of_resolved env n st hst hall
  rw [h1] at hret
  simp only [Option.some.injEq] at hret
  subst hret
  refine ⟨h2, h3, ?_, ?_⟩
  · intro k info hinfo
    obtain ⟨hp, ha⟩ := h4 k info hinfo
    refine ⟨(serviceAddress_eq_some_iff env n k info.Address).1 ha, ?_, ?_⟩
    · rw [hp]
      exact nodup_addNodesOf _ _ _ List.nodup_nil
    · intro x
      rw [hp, mem_addNodesOf]
      simp
  · intro look
    simp only [GetServices]
    cases n.apiMasterClient.GetSystemState with
    | error e => rfl
    | ok st2 =>
      refine servicesLoop_congr env n _ ?_ _ _ _
      rfl

/-- C5, at the examples: the address of `/srv` is `b:2`, that of its provider is `a:3`. -/
theorem GetServices_entries_witness :
    (exNode.apiMasterClient.GetSystemState = .ok exState
      ∧ (GetServices exEnv exNode).val = some exServices)
    ∧ (mapKeys exServices).Nodup
      ∧ (∀ k, k ∈ mapKeys exServices ↔ ∃ e ∈ exState.ProvidedServices, e.Name = k)
      ∧ (∀ k info, mapGet exServices k = some info →
          (∃ url, exNode.apiMasterClient.LookupService k = .ok url
            ∧ exEnv.urlToAddress url = .ok info.Address)
          ∧ info.Providers.Nodup
          ∧ ∀ x, x ∈ info.Providers ↔
              ∃ e ∈ exState.ProvidedServices, e.Name = k ∧ x ∈ e.Nodes)
      ∧ ∀ look : String → Except GoError String,
          GetServices exEnv
              { exNode with
                apiMasterClient := { exNode.apiMasterClient with LookupNode := look } }
            = GetServices exEnv exNode :=
  ⟨⟨rfl, by decide⟩, GetServices_entries exEnv exNode exState exServices rfl (by decide)⟩

/-- C10: `GetServices` returns the `nil` map and an error when `GetSystemState` fails,
and when, for the name of an entry of `ProvidedServices`, `LookupService` fails or
`urlToAddress` fails on the URL it returns, whatever the entries before it; when
`GetSystemState` succeeds and the name of every entry is looked up and resolved,
`GetServices` returns a map and no error. -/
theorem GetServices_atomic (env : Env) (n : Node) :
    (∀ e, n.apiMasterClient.GetSystemState = .error e →
        (GetServices env n).val = none
          ∧ (GetServices env n).err = some ("getSystemState: " ++ e))
    ∧ (∀ st, n.apiMasterClient.GetSystemState = .ok st →
        (∃ entry ∈ st.ProvidedServices,
          (∃ e, n.apiMasterClient.LookupService entry.Name = .error e)
          ∨ ∃ url e, n.apiMasterClient.LookupService entry.Name = .ok url
              ∧ env.urlToAddress url = .error e) →
        (GetServices env n).val = none ∧ ∃ e, (GetServices env n).err = some e)
    ∧ (∀ st, n.apiMasterClient.GetSystemState = .ok st →
        (∀ entry ∈ st.ProvidedServices, ∃ url address,
          n.apiMasterClient.LookupService entry.Name = .ok url
            ∧ env.urlToAddress url = .ok address) →
        ∃ ret, (GetServices env n).val = some ret ∧ (GetServices env n).err = none) := by
  refine ⟨?_, ?_, ?_⟩
  · intro e he
    simp [GetServices, he]
  · rintro st hst ⟨entry, hentry, hfail⟩
    exact GetServices_of_unresolved env n st hst
      ⟨entry, hentry, (serviceAddress_eq_none_iff env n entry.Name).2 hfail⟩
  · intro st hst hall
    have hall2 : ∀ e ∈ st.ProvidedServices, ∃ a, serviceAddress env n e.Name = some a := by
      intro e he
      obtain ⟨url, a, h1, h2⟩ := hall e he
      exact ⟨a, (serviceAddress_eq_some_iff env n e.Name a).2 ⟨url, h1, h2⟩⟩
    obtain ⟨ret, h1, _⟩ := GetServices_of_resolved env n st hst hall2
    exact ⟨ret, by rw [h1], by rw [h1]⟩

/-- C10, at the examples: a master that is down, a state whose second service is
unknown to the master while the first is resolved, and a state whose service is known. -/
theorem GetServices_atomic_witness :
    ((GetServices exEnv exNodeDown).val = none
        ∧ (GetServices exEnv exNodeDown).err = some ("getSystemState: " ++ "connection refused"))
    ∧ ((GetServices exEnv exNodeTwo).val = none
        ∧ ∃ e, (GetServices exEnv exNodeTwo).err = some e)
    ∧ (∃ ret, (GetServices exEnv exNode).val = some ret ∧ (GetServices exEnv exNode).err = none) :=
  ⟨(GetServices_atomic exEnv exNodeDown).1 "connection refused" rfl,
    (GetServices_atomic exEnv exNodeTwo).2.1 exStateTwo rfl
      ⟨⟨"/gone", ["/lidar"]⟩, by decide, Or.inl ⟨"unknown service", rfl⟩⟩,
    (GetServices_atomic exEnv exNode).2.2 exState rfl (by
      intro entry hentry
      have h : entry = ⟨"/srv", ["/only"]⟩ := by simpa [exState] using hentry
      subst h
      exact ⟨"http://b:2", "b:2", rfl, rfl⟩)⟩

/-! ## Lemmas on the decoding loop of GetNodeConns -/

theorem connOfEntry_fields (id : Int) (peer d tr tp : String) (c : Bool) (rest : List Value)
    (hd : (goBytes d).length = 1) :
    connOfEntry (.int id :: .str peer :: .str d :: .str tr :: .str tp :: .bool c :: rest)
      = .ok { ID := id, To := peer, Direction := (goBytes d).headD 0, Transport := tr,
              Topic := tp, Connected := c } := by
  have h0 : (Value.int id :: .str peer :: .str d :: .str tr :: .str tp :: .bool c :: rest)[0]?
      = some (.int id) := rfl
  have h1 : (Value.int id :: .str peer :: .str d :: .str tr :: .str tp :: .bool c :: rest)[1]?
      = some (.str peer) := rfl
  have h2 : (Value.int id :: .str peer :: .str d :: .str tr :: .str tp :: .bool c :: rest)[2]?
      = some (.str d) := rfl
  have h3 : (Value.int id :: .str peer :: .str d :: .str tr :: .str tp :: .bool c :: rest)[3]?
      = some (.str tr) := rfl
  have h4 : (Value.int id :: .str peer :: .str d :: .str tr :: .str tp :: .bool c :: rest)[4]?
      = some (.str tp) := rfl
  have h5 : (Value.int id :: .str peer :: .str d :: .str tr :: .str tp :: .bool c :: rest)[5]?
      = some (.bool c) := by simp
  have hlen : ¬ (Value.int id :: .str peer :: .str d :: .str tr :: .str tp :: .bool c
      :: rest).length < 6 := by
    simp only [List.length_cons]
    omega
  unfold connOfEntry
  simp only [hlen, if_false, h0, h1, h2, h3, h4, h5, hd, ne_eq, not_true_eq_false]

theorem not_malformed_iff (i : List Value) :
    ¬ malformed i ↔ ∃ id peer d tr tp c rest,
      i = .int id :: .str peer :: .str d :: .str tr :: .str tp :: .bool c :: rest
        ∧ (goBytes d).length = 1 := by
  constructor
  · intro h
    simp only [malformed, not_or, not_lt, Bool.not_eq_false] at h
    obtain ⟨hlen, h0, h1, h2, h3, h4, h5⟩ := h
    match i, hlen with
    | f0 :: f1 :: f2 :: f3 :: f4 :: f5 :: rest, _ =>
      have e0 : (f0 :: f1 :: f2 :: f3 :: f4 :: f5 :: rest)[0]? = some f0 := rfl
      have e1 : (f0 :: f1 :: f2 :: f3 :: f4 :: f5 :: rest)[1]? = some f1 := rfl
      have e2 : (f0 :: f1 :: f2 :: f3 :: f4 :: f5 :: rest)[2]? = some f2 := rfl
      have e3 : (f0 :: f1 :: f2 :: f3 :: f4 :: f5 :: rest)[3]? = some f3 := rfl
      have e4 : (f0 :: f1 :: f2 :: f3 :: f4 :: f5 :: rest)[4]? = some f4 := rfl
      have e5 : (f0 :: f1 :: f2 :: f3 :: f4 :: f5 :: rest)[5]? = some f5 := by simp
      rw [e0] at h0
      rw [e1] at h1
      rw [e2] at h2
      rw [e3] at h3
      rw [e4] at h4
      rw [e5] at h5
      cases f0 <;> simp only [isInt, Bool.false_eq_true] at h0
      cases f1 <;> simp only [isStr, Bool.false_eq_true] at h1
      cases f2 <;> simp only [isStrLen1, Bool.false_eq_true, decide_eq_true_eq] at h2
      cases f3 <;> simp only [isStr, Bool.false_eq_true] at h3
      cases f4 <;> simp only [isStr, Bool.false_eq_true] at h4
      cases f5 <;> simp only [isBool, Bool.false_eq_true] at h5
      exact ⟨_, _, _, _, _, _, rest, rfl, h2⟩
  · rintro ⟨id, peer, d, tr, tp, c, rest, rfl, hd⟩
    have e0 : (Value.int id :: .str peer :: .str d :: .str tr :: .str tp :: .bool c :: rest)[0]?
        = some (.int id) := rfl
    have e1 : (Value.int id :: .str peer :: .str d :: .str tr :: .str tp :: .bool c :: rest)[1]?
        = some (.str peer) := rfl
    have e2 : (Value.int id :: .str peer :: .str d :: .str tr :: .str tp :: .bool c :: rest)[2]?
        = some (.str d) := rfl
    have e3 : (Value.int id :: .str peer :: .str d :: .str tr :: .str tp :: .bool c :: rest)[3]?
        = some (.str tr) := rfl
    have e4 : (Value.int id :: .str peer :: .str d :: .str tr :: .str tp :: .bool c :: rest)[4]?
        = some (.str tp) := rfl
    have e5 : (Value.int id :: .str peer :: .str d :: .str tr :: .str tp :: .bool c :: rest)[5]?
        = some (.bool c) := by simp
    simp only [malformed, e0, e1, e2, e3, e4, e5, isInt, isStr, isStrLen1, isBool, hd,
      List.length_cons, decide_True, Bool.true_eq_false, or_false, not_lt]
    omega

theorem connOfEntry_ok_or_error (i : List Value) :
    (∃ conn, connOfEntry i = .ok conn) ∨ connOfEntry i = .error (invalidEntry i) := by
  unfold connOfEntry
  repeat' split
  all_goals first
    | exact Or.inr rfl
    | exact Or.inl ⟨_, rfl⟩

theorem connOfEntry_ok_not_malformed (i : List Value) (conn : InfoConnection)
    (h : connOfEntry i = .ok conn) : ¬ malformed i := by
  unfold connOfEntry at h
  split at h <;> try cases h
  split at h <;> try cases h
  split at h <;> try cases h
  split at h <;> try cases h
  split at h <;> try cases h
  split at h <;> try cases h
  split at h <;> try cases h
  split at h <;> try cases h
  simp_all [malformed, isInt, isStr, isStrLen1, isBool]

theorem connOfEntry_error_iff (i : List Value) :
    connOfEntry i = .error (invalidEntry i) ↔ malformed i := by
  constructor
  · intro h
    by_contra hn
    obtain ⟨id, peer, d, tr, tp, c, rest, rfl, hd⟩ := (not_malformed_iff i).1 hn
    rw [connOfEntry_fields id peer d tr tp c rest hd] at h
    cases h
  · intro h
    rcases connOfEntry_ok_or_error i with ⟨conn, hc⟩ | he
    · exact absurd h (connOfEntry_ok_not_malformed i conn hc)
    · exact he

theorem connOfEntry_ok_iff (i : List Value) :
    (∃ conn, connOfEntry i = .ok conn) ↔ ¬ malformed i := by
  constructor
  · rintro ⟨conn, hc⟩
    exact connOfEntry_ok_not_malformed i conn hc
  · intro h
    rcases connOfEntry_ok_or_error i with hc | he
    · exact hc
    · exact absurd ((connOfEntry_error_iff i).1 he) h

theorem length_goBytes_cons (c : Char) (cs : List Char) :
    (goBytes ⟨c :: cs⟩).length = c.utf8Size + (goBytes ⟨cs⟩).length := by
  simp [goBytes]

theorem goBytes_length_pos (c : Char) (cs : List Char) : 0 < (goBytes ⟨c :: cs⟩).length := by
  rw [length_goBytes_cons]
  have := Char.utf8Size_pos c
  omega

theorem goBytes_length_one (d : String) (h : (goBytes d).length = 1) :
    ∃ ch : Char, d = String.singleton ch ∧ ch.toNat < 128 ∧ goBytes d = [ch.toNat] := by
  obtain ⟨data⟩ := d
  match data, h with
  | [], h => simp [goBytes] at h
  | [c], h =>
    refine ⟨c, rfl, ?_⟩
    rw [length_goBytes_cons] at h
    have hsize : c.utf8Size = 1 := by
      have := Char.utf8Size_pos c
      omega
    have hl : (String.utf8EncodeChar c).length = 1 := by
      rw [String.length_utf8EncodeChar]
      exact hsize
    have hle : c.val ≤ 0x7f := by
      by_contra hcon
      simp only [String.utf8EncodeChar, hcon, if_false] at hl
      split at hl
      · simp at hl
      · split at hl <;> simp at hl
    have hlt : c.val.toNat < 128 := by
      have : c.val.toNat ≤ 127 := hle
      omega
    refine ⟨hlt, ?_⟩
    have hmod : c.val.toNat % 256 = c.val.toNat := Nat.mod_eq_of_lt (by omega)
    simp [goBytes, String.utf8EncodeChar, hle, Char.toNat, UInt32.toUInt8, Nat.toUInt8,
      UInt8.ofNat, Fin.ofNat, UInt8.toNat, hmod]
  | c :: c2 :: cs, h =>
    rw [length_goBytes_cons] at h
    have h1 := Char.utf8Size_pos c
    have h2 := goBytes_length_pos c2 cs
    omega

theorem connsLoop_ok (infos : List (List Value)) (ret : Option (List InfoConnection))
    (calls : List Call) (h : ∀ i ∈ infos, ¬ malformed i) :
    ∃ conns, conns.map Except.ok = infos.map connOfEntry
      ∧ connsLoop infos ret calls
          = ⟨if infos = [] then ret else some (sliceElems ret ++ conns), none, calls⟩ := by
  induction infos generalizing ret with
  | nil => exact ⟨[], rfl, by simp [connsLoop]⟩
  | cons i infos ih =>
    obtain ⟨conn, hc⟩ := (connOfEntry_ok_iff i).2 (h i (List.mem_cons_self i infos))
    obtain ⟨conns, h1, h2⟩ :=
      ih (some (ret.getD [] ++ [conn])) (fun j hj => h j (List.mem_cons_of_mem i hj))
    refine ⟨conn :: conns, by simp [h1, hc], ?_⟩
    simp only [connsLoop, hc, h2]
    by_cases hnil : infos = []
    · subst hnil
      have : conns = [] := by simpa using h1
      simp [this, sliceElems]
    · simp [hnil, sliceElems]

theorem connsLoop_fail (infos : List (List Value)) (ret : Option (List InfoConnection))
    (calls : List Call) (h : ∃ i ∈ infos, malformed i) :
    (connsLoop infos ret calls).val = none
      ∧ ∃ e, (connsLoop infos ret calls).err = some e := by
  induction infos generalizing ret with
  | nil =>
    obtain ⟨i, hi, _⟩ := h
    cases hi
  | cons i infos ih =>
    rcases connOfEntry_ok_or_error i with ⟨conn, hc⟩ | he
    · simp only [connsLoop, hc]
      apply ih
      obtain ⟨j, hj, hmal⟩ := h
      rcases List.mem_cons.1 hj with rfl | hj2
      · exact absurd hmal (connOfEntry_ok_not_malformed _ conn hc)
      · exact ⟨j, hj2, hmal⟩
    · simp [connsLoop, he]

theorem GetNodeConns_of_infos (env : Env) (n : Node) (nodeName url address : String)
    (infos : List (List Value))
    (h1 : n.apiMasterClient.LookupNode nodeName = .ok url)
    (h2 : env.urlToAddress url = .ok address)
    (h3 : env.GetBusInfo address n.absoluteName = .ok infos) :
    GetNodeConns env n nodeName
      = connsLoop infos none
          [Call.LookupNode nodeName, Call.GetBusInfo address n.absoluteName] := by
  simp only [GetNodeConns, h1, h2, h3]

/-! ## GetNodeConns -/

/-- C6: for a tuple whose first six fields are an `int`, a `string`, a `string` of
length 1, a `string`, a `string` and a `bool`, whatever follows them, the body of the
loop of `GetNodeConns` gives the record with these fields, `Direction` being the first
byte of field 2, which is the code of its single character; and the loop over the batch
of this one tuple returns this one record. -/
theorem GetNodeConns_decodes (id : Int) (peer d tr tp : String) (c : Bool) (rest : List Value)
    (calls : List Call) (hd : (goBytes d).length = 1) :
    connOfEntry (.int id :: .str peer :: .str d :: .str tr :: .str tp :: .bool c :: rest)
        = .ok { ID := id, To := peer, Direction := (goBytes d).headD 0, Transport := tr,
                Topic := tp, Connected := c }
      ∧ (∃ ch : Char, d = String.singleton ch ∧ (goBytes d).headD 0 = ch.toNat)
      ∧ connsLoop [.int id :: .str peer :: .str d :: .str tr :: .str tp :: .bool c :: rest]
            none calls
          = ⟨some [{ ID := id, To := peer, Direction := (goBytes d).headD 0, Transport := tr,
                     Topic := tp, Connected := c }], none, calls⟩ := by
  have hconn := connOfEntry_fields id peer d tr tp c rest hd
  refine ⟨hconn, ?_, ?_⟩
  · obtain ⟨ch, h1, _, h3⟩ := goBytes_length_one d hd
    exact ⟨ch, h1, by rw [h3]; rfl⟩
  · simp [connsLoop, hconn]

/-- C6, at the tuple `(3, "http://x:1", "i", "TCPROS", "/scan", true)`. -/
theorem GetNodeConns_decodes_witness :
    (goBytes "i").length = 1
    ∧ connOfEntry [.int 3, .str "http://x:1", .str "i", .str "TCPROS", .str "/scan",
          .bool true]
        = .ok { ID := 3, To := "http://x:1", Direction := 'i'.toNat, Transport := "TCPROS",
                Topic := "/scan", Connected := true }
      ∧ (∃ ch : Char, "i" = String.singleton ch ∧ 'i'.toNat = ch.toNat)
      ∧ connsLoop [[.int 3, .str "http://x:1", .str "i", .str "TCPROS", .str "/scan",
            .bool true]] none []
          = ⟨some [{ ID := 3, To := "http://x:1", Direction := 'i'.toNat,
                     Transport := "TCPROS", Topic := "/scan", Connected := true }], none, []⟩ :=
  ⟨by decide, GetNodeConns_decodes 3 "http://x:1" "i" "TCPROS" "/scan" true [] [] (by decide)⟩

/-- C7: when the node lookup, the address resolution and the bus-info query succeed,
`GetNodeConns` returns an error exactly when a tuple of the answer is malformed, and then
it returns the `nil` slice, whatever well-formed tuples came first. The length of field 2
is `len`, the number of bytes. -/
theorem GetNodeConns_fails_iff (env : Env) (n : Node) (nodeName url address : String)
    (infos : List (List Value))
    (h1 : n.apiMasterClient.LookupNode nodeName = .ok url)
    (h2 : env.urlToAddress url = .ok address)
    (h3 : env.GetBusInfo address n.absoluteName = .ok infos) :
    ((∃ e, (GetNodeConns env n nodeName).err = some e) ↔ ∃ i ∈ infos, malformed i)
      ∧ ((∃ e, (GetNodeConns env n nodeName).err = some e) →
          (GetNodeConns env n nodeName).val = none) := by
  rw [GetNodeConns_of_infos env n nodeName url address infos h1 h2 h3]
  by_cases hmal : ∃ i ∈ infos, malformed i
  · obtain ⟨hval, herr⟩ := connsLoop_fail infos none
      [Call.LookupNode nodeName, Call.GetBusInfo address n.absoluteName] hmal
    exact ⟨⟨fun _ => hmal, fun _ => herr⟩, fun _ => hval⟩
  · have hwf : ∀ i ∈ infos, ¬ malformed i := fun i hi hm => hmal ⟨i, hi, hm⟩
    obtain ⟨conns, _, hloop⟩ := connsLoop_ok infos none
      [Call.LookupNode nodeName, Call.GetBusInfo address n.absoluteName] hwf
    rw [hloop]
    constructor
    · constructor
      · rintro ⟨e, he⟩
        cases he
      · intro h
        exact absurd h hmal
    · rintro ⟨e, he⟩
      cases he

/-- C7, at the node `/nav` of the examples, whose peer answers a well-formed tuple and
then one whose direction is `"io"`. -/
theorem GetNodeConns_fails_iff_witness :
    (exNode.apiMasterClient.LookupNode "/nav" = .ok "http://b:2"
      ∧ exEnv.urlToAddress "http://b:2" = .ok "b:2"
      ∧ exEnv.GetBusInfo "b:2" exNode.absoluteName
          = .ok [[.int 1, .str "http://x:1", .str "o", .str "TCPROS", .str "/tf", .bool true],
              [.int 2, .str "http://x:1", .str "io", .str "TCPROS", .str "/scan", .bool true]])
    ∧ ((∃ e, (GetNodeConns exEnv exNode "/nav").err = some e) ↔
        ∃ i ∈ [[Value.int 1, .str "http://x:1", .str "o", .str "TCPROS", .str "/tf", .bool true],
            [.int 2, .str "http://x:1", .str "io", .str "TCPROS", .str "/scan", .bool true]],
          malformed i)
      ∧ ((∃ e, (GetNodeConns exEnv exNode "/nav").err = some e) →
          (GetNodeConns exEnv exNode "/nav").val = none) :=
  ⟨⟨rfl, rfl, rfl⟩, GetNodeConns_fails_iff exEnv exNode "/nav" "http://b:2" "b:2" _ rfl rfl rfl⟩

/-- C8: when the node lookup, the address resolution and the bus-info query succeed and
every tuple of the answer is well-formed, `GetNodeConns` returns no error and a slice as
long as the answer, whose record at each index is the decoding of the tuple at that index. -/
theorem GetNodeConns_order (env : Env) (n : Node) (nodeName url address : String)
    (infos : List (List Value))
    (h1 : n.apiMasterClient.LookupNode nodeName = .ok url)
    (h2 : env.urlToAddress url = .ok address)
    (h3 : env.GetBusInfo address n.absoluteName = .ok infos)
    (hwf : ∀ i ∈ infos, ¬ malformed i) :
    (GetNodeConns env n nodeName).err = none
      ∧ (sliceElems (GetNodeConns env n nodeName).val).length = infos.length
      ∧ (sliceElems (GetNodeConns env n nodeName).val).map Except.ok = infos.map connOfEntry
      ∧ ∀ (j : Nat) (i : List Value), infos[j]? = some i →
          ∃ conn, (sliceElems (GetNodeConns env n nodeName).val)[j]? = some conn
            ∧ connOfEntry i = .ok conn := by
  rw [GetNodeConns_of_infos env n nodeName url address infos h1 h2 h3]
  obtain ⟨conns, hmap, hloop⟩ := connsLoop_ok infos none
    [Call.LookupNode nodeName, Call.GetBusInfo address n.absoluteName] hwf
  rw [hloop]
  have helems : sliceElems (if infos = [] then none else some (sliceElems none ++ conns))
      = conns := by
    by_cases hnil : infos = []
    · subst hnil
      have : conns = [] := by simpa using hmap
      simp [sliceElems, this]
    · simp [hnil, sliceElems]
  simp only [helems]
  have hlen : conns.length = infos.length := by
    have := congrArg List.length hmap
    simpa using this
  refine ⟨trivial, hlen, hmap, ?_⟩
  intro j i hj
  have hget := congrArg (fun l => l[j]?) hmap
  simp only [List.getElem?_map, hj, Option.map_some'] at hget
  cases hc : conns[j]? with
  | none => simp [hc] at hget
  | some conn =>
    rw [hc] at hget
    simp only [Option.map_some', Option.some.injEq] at hget
    exact ⟨conn, rfl, hget.symm⟩

/-- C8, at the node `/only` of the examples, whose peer answers two well-formed tuples. -/
theorem GetNodeConns_order_witness :
    (exNode.apiMasterClient.LookupNode "/only" = .ok "http://a:3"
      ∧ exEnv.urlToAddress "http://a:3" = .ok "a:3"
      ∧ exEnv.GetBusInfo "a:3" exNode.absoluteName
          = .ok [[.int 1, .str "http://y:1", .str "o", .str "TCPROS", .str "/tf", .bool true],
              [.int 2, .str "http://y:2", .str "i", .str "UDPROS", .str "/scan", .bool false,
                .other "1.5"]])
    ∧ (GetNodeConns exEnv exNode "/only").err = none
      ∧ (sliceElems (GetNodeConns exEnv exNode "/only").val).length = 2
      ∧ (sliceElems (GetNodeConns exEnv exNode "/only").val).map Except.ok
          = [[Value.int 1, .str "http://y:1", .str "o", .str "TCPROS", .str "/tf", .bool true],
              [.int 2, .str "http://y:2", .str "i", .str "UDPROS", .str "/scan", .bool false,
                .other "1.5"]].map connOfEntry
      ∧ ∀ (j : Nat) (i : List Value),
          [[Value.int 1, .str "http://y:1", .str "o", .str "TCPROS", .str "/tf", .bool true],
              [.int 2, .str "http://y:2", .str "i", .str "UDPROS", .str "/scan", .bool false,
                .other "1.5"]][j]? = some i →
          ∃ conn, (sliceElems (GetNodeConns exEnv exNode "/only").val)[j]? = some conn
            ∧ connOfEntry i = .ok conn :=
  ⟨⟨rfl, rfl, rfl⟩,
    GetNodeConns_order exEnv exNode "/only" "http://a:3" "a:3" _ rfl rfl rfl (by decide)⟩

/-! ## The error of a failed registry call -/

theorem nodesLookup_first_fail (env : Env) (n : Node) (pre : List String) (k : String)
    (post : List String) (ret : GoMap InfoNode) (calls : List Call)
    (hpre : ∀ j ∈ pre, ∃ a, nodeAddress env n j = some a) :
    (∀ e, n.apiMasterClient.LookupNode k = .error e →
        nodesLookup env n (pre ++ k :: post) ret calls
          = ⟨none, some ("lookupNode: " ++ e), calls ++ (pre ++ [k]).map Call.LookupNode⟩)
    ∧ (∀ url e, n.apiMasterClient.LookupNode k = .ok url → env.urlToAddress url = .error e →
        nodesLookup env n (pre ++ k :: post) ret calls
          = ⟨none, some e, calls ++ (pre ++ [k]).map Call.LookupNode⟩) := by
  induction pre generalizing ret calls with
  | nil =>
    constructor
    · intro e he
      simp [nodesLookup, he]
    · intro url e hurl he
      simp [nodesLookup, hurl, he]
  | cons a pre ih =>
    obtain ⟨addr, ha⟩ := hpre a (List.mem_cons_self a pre)
    obtain ⟨url, hurl, haddr⟩ := (nodeAddress_eq_some_iff env n a addr).1 ha
    obtain ⟨h1, h2⟩ := ih (mapModify ret a (fun info => { info with Address := addr }))
      (calls ++ [Call.LookupNode a]) (fun j hj => hpre j (List.mem_cons_of_mem a hj))
    constructor
    · intro e he
      rw [List.cons_append]
      simp only [nodesLookup, hurl, haddr]
      rw [h1 e he]
      simp
    · intro url2 e hurl2 he
      rw [List.cons_append]
      simp only [nodesLookup, hurl, haddr]
      rw [h2 url2 e hurl2 he]
      simp

theorem servicesLoop_first_fail (env : Env) (n : Node) (pre : List SystemStateEntry)
    (entry : SystemStateEntry) (post : List SystemStateEntry) (ret : GoMap InfoService)
    (calls : List Call) (hpre : ∀ p ∈ pre, ∃ a, serviceAddress env n p.Name = some a) :
    (∀ e, n.apiMasterClient.LookupService entry.Name = .error e →
        servicesLoop env n (pre ++ entry :: post) ret calls
          = ⟨none, some ("lookupService: " ++ e),
              calls ++ (pre ++ [entry]).map (fun p => Call.LookupService p.Name)⟩)
    ∧ (∀ url e, n.apiMasterClient.LookupService entry.Name = .ok url →
        env.urlToAddress url = .error e →
        servicesLoop env n (pre ++ entry :: post) ret calls
          = ⟨none, some e,
              calls ++ (pre ++ [entry]).map (fun p => Call.LookupService p.Name)⟩) := by
  induction pre generalizing ret calls with
  | nil =>
    constructor
    · intro e he
      simp [servicesLoop, he]
    · intro url e hurl he
      simp [servicesLoop, hurl, he]
  | cons a pre ih =>
    obtain ⟨addr, ha⟩ := hpre a (List.mem_cons_self a pre)
    obtain ⟨url, hurl, haddr⟩ := (serviceAddress_eq_some_iff env n a.Name addr).1 ha
    obtain ⟨h1, h2⟩ :=
      ih (mapModify (servicesProviders a ret) a.Name (fun info => { info with Address := addr }))
        (calls ++ [Call.LookupService a.Name]) (fun j hj => hpre j (List.mem_cons_of_mem a hj))
    constructor
    · intro e he
      rw [List.cons_append]
      simp only [servicesLoop, hurl, haddr]
      rw [h1 e he]
      simp
    · intro url2 e hurl2 he
      rw [List.cons_append]
      simp only [servicesLoop, hurl, haddr]
      rw [h2 url2 e hurl2 he]
      simp

/-- C11, refuted as stated: on a master that does not know the node `/nav`, the error of
`GetNodes` is `lookupNode: unknown node`, which does not mention `/nav`; and on a master
that is down, `GetNodes` returns the error of `GetSystemState` as it is, without the
name of the call. -/
theorem error_identity_counterexample :
    (exNodeNoNav.apiMasterClient.GetSystemState = .ok exState
      ∧ "/nav" ∈ nodeNames exState
      ∧ exNodeNoNav.apiMasterClient.LookupNode "/nav" = .error "unknown node"
      ∧ (GetNodes exEnv exNodeNoNav).err = some "lookupNode: unknown node"
      ∧ ¬ mentions "lookupNode: unknown node" "/nav")
    ∧ (exNodeDown.apiMasterClient.GetSystemState = .error "connection refused"
      ∧ (GetNodes exEnv exNodeDown).err = some "connection refused"
      ∧ ¬ mentions "connection refused" "getSystemState") := by
  decide

/-- C11, amended: when `GetSystemState` fails inside `GetTopics` or `GetServices`, when
`GetTopicTypes` fails inside `GetTopics`, when a call of `LookupService` fails inside
`GetServices`, and when a call of `LookupNode` fails inside `GetNodes`, the operation
returns the `nil` map, and its error is the name of the call (`getSystemState`,
`getTopicTypes`, `lookupService`, `lookupNode`), then `: `, then the text of the error
of the call; the argument of the call is not added. A call of the loop is reached when
the names before it, in the order of the loop, are looked up and resolved. -/
theorem error_names_call (env : Env) (n : Node) :
    (∀ e, n.apiMasterClient.GetSystemState = .error e →
        (GetTopics n).val = none ∧ (GetTopics n).err = some ("getSystemState: " ++ e))
    ∧ (∀ st e, n.apiMasterClient.GetSystemState = .ok st →
        n.apiMasterClient.GetTopicTypes = .error e →
        (GetTopics n).val = none ∧ (GetTopics n).err = some ("getTopicTypes: " ++ e))
    ∧ (∀ e, n.apiMasterClient.GetSystemState = .error e →
        (GetServices env n).val = none
          ∧ (GetServices env n).err = some ("getSystemState: " ++ e))
    ∧ (∀ st pre entry post e, n.apiMasterClient.GetSystemState = .ok st →
        st.ProvidedServices = pre ++ entry :: post →
        (∀ p ∈ pre, (serviceAddress env n p.Name).isSome = true) →
        n.apiMasterClient.LookupService entry.Name = .error e →
        (GetServices env n).val = none
          ∧ (GetServices env n).err = some ("lookupService: " ++ e))
    ∧ (∀ st pre k post e, n.apiMasterClient.GetSystemState = .ok st →
        env.rangeOrder (mapKeys (nodesOfState st)) = pre ++ k :: post →
        (∀ j ∈ pre, (nodeAddress env n j).isSome = true) →
        n.apiMasterClient.LookupNode k = .error e →
        (GetNodes env n).val = none ∧ (GetNodes env n).err = some ("lookupNode: " ++ e)) := by
  refine ⟨?_, ?_, ?_, ?_, ?_⟩
  · intro e he
    simp [GetTopics, he]
  · intro st e hst he
    simp [GetTopics, hst, he]
  · intro e he
    simp [GetServices, he]
  · intro st pre entry post e hst hsplit hpre he
    have hpre2 : ∀ p ∈ pre, ∃ a, serviceAddress env n p.Name = some a := fun p hp =>
      Option.isSome_iff_exists.1 (hpre p hp)
    simp [GetServices, hst, hsplit,
      (servicesLoop_first_fail env n pre entry post [] [Call.GetSystemState] hpre2).1 e he]
  · intro st pre k post e hst hsplit hpre he
    have hpre2 : ∀ j ∈ pre, ∃ a, nodeAddress env n j = some a := fun j hj =>
      Option.isSome_iff_exists.1 (hpre j hj)
    simp [GetNodes, hst, hsplit,
      (nodesLookup_first_fail env n pre k post (nodesOfState st) [Call.GetSystemState] hpre2).1
        e he]

/-- C11, amended, at the examples: a master that is down, a master whose `GetTopicTypes`
fails, a state whose second service is unknown, and a master that does not know the
node `/nav`, which the loop reaches after `/only`. -/
theorem error_names_call_witness :
    ((GetTopics exNodeDown).val = none
        ∧ (GetTopics exNodeDown).err = some ("getSystemState: " ++ "connection refused"))
    ∧ ((GetTopics exNodeNoTypes).val = none
        ∧ (GetTopics exNodeNoTypes).err = some ("getTopicTypes: " ++ "timeout"))
    ∧ ((GetServices exEnv exNodeDown).val = none
        ∧ (GetServices exEnv exNodeDown).err = some ("getSystemState: " ++ "connection refused"))
    ∧ ((GetServices exEnv exNodeTwo).val = none
        ∧ (GetServices exEnv exNodeTwo).err = some ("lookupService: " ++ "unknown service"))
    ∧ ((GetNodes exEnv exNodeNoNav).val = none
        ∧ (GetNodes exEnv exNodeNoNav).err = some ("lookupNode: " ++ "unknown node")) :=
  ⟨(error_names_call exEnv exNodeDown).1 "connection refused" rfl,
    (error_names_call exEnv exNodeNoTypes).2.1 exState "timeout" rfl rfl,
    (error_names_call exEnv exNodeDown).2.2.1 "connection refused" rfl,
    (error_names_call exEnv exNodeTwo).2.2.2.1 exStateTwo [⟨"/srv", ["/only"]⟩]
      ⟨"/gone", ["/lidar"]⟩ [] "unknown service" rfl rfl (by decide) rfl,
    (error_names_call exEnv exNodeNoNav).2.2.2.2 exState ["/only"] "/nav" ["/lidar"]
      "unknown node" rfl (by decide) (by decide) rfl⟩

/-! ## The calls of GetServices -/

theorem GetServices_err_none (env : Env) (n : Node) (st : SystemState)
    (hst : n.apiMasterClient.GetSystemState = .ok st)
    (hsucc : (GetServices env n).err = none) :
    ∀ e ∈ st.ProvidedServices, ∃ a, serviceAddress env n e.Name = some a := by
  by_contra hcon
  have hsome : ∃ e ∈ st.ProvidedServices, serviceAddress env n e.Name = none := by
    by_contra hcon2
    apply hcon
    intro e he
    cases hn : serviceAddress env n e.Name with
    | none => exact absurd ⟨e, he, hn⟩ hcon2
    | some a => exact ⟨a, rfl⟩
  obtain ⟨x, hx⟩ := (GetServices_of_unresolved env n st hst hsome).2
  rw [hx] at hsucc
  cases hsucc

/-- C12, refuted as stated: on the state `exStateDup`, which lists the service `/srv`
twice, `GetServices` succeeds and calls `LookupService` for `/srv` twice. -/
theorem GetServices_calls_counterexample :
    exNodeDup.apiMasterClient.GetSystemState = .ok exStateDup
    ∧ exStateDup.ProvidedServices.map (fun e => e.Name) = ["/srv", "/srv"]
    ∧ (GetServices exEnv exNodeDup).err = none
    ∧ (GetServices exEnv exNodeDup).calls
        = [Call.GetSystemState, Call.LookupService "/srv", Call.LookupService "/srv"]
    ∧ (GetServices exEnv exNodeDup).calls.count (Call.LookupService "/srv") = 2 := by
  decide

/-- C12, amended: when `GetServices` succeeds on the state `st`, it calls `LookupService`
once per entry of `st.ProvidedServices`, in the order of the list: its calls are
`GetSystemState`, then `LookupService` of the name of each entry. A name is looked up as
many times as the list has entries of this name, hence exactly once when the names of
the entries are distinct. -/
theorem GetServices_calls (env : Env) (n : Node) (st : SystemState)
    (hst : n.apiMasterClient.GetSystemState = .ok st)
    (hsucc : (GetServices env n).err = none) :
    (GetServices env n).calls
        = Call.GetSystemState :: st.ProvidedServices.map (fun e => Call.LookupService e.Name)
    ∧ (∀ name, (GetServices env n).calls.count (Call.LookupService name)
        = (st.ProvidedServices.map (fun e => e.Name)).count name)
    ∧ ((st.ProvidedServices.map (fun e => e.Name)).Nodup →
        ∀ e ∈ st.ProvidedServices,
          (GetServices env n).calls.count (Call.LookupService e.Name) = 1) := by
  obtain ⟨ret, h1, _⟩ :=
    GetServices_of_resolved env n st hst (GetServices_err_none env n st hst hsucc)
  have hcount : ∀ name, (GetServices env n).calls.count (Call.LookupService name)
      = (st.ProvidedServices.map (fun e => e.Name)).count name := by
    intro name
    rw [h1]
    have hmap : st.ProvidedServices.map (fun e => Call.LookupService e.Name)
        = (st.ProvidedServices.map (fun e => e.Name)).map Call.LookupService := by
      rw [List.map_map]
      rfl
    have hinj : Function.Injective Call.LookupService := by
      intro a b hab
      cases hab
      rfl
    simp only [hmap]
    rw [List.count_cons_of_ne (by simp), List.count_map_of_injective _ _ hinj]
  refine ⟨by rw [h1], hcount, ?_⟩
  intro hnodup e he
  rw [hcount]
  exact List.count_eq_one_of_mem hnodup (List.mem_map.2 ⟨e, he, rfl⟩)

/-- C12, amended, at the state `exStateDup` of the counterexample. -/
theorem GetServices_calls_witness :
    (exNodeDup.apiMasterClient.GetSystemState = .ok exStateDup
      ∧ (GetServices exEnv exNodeDup).err = none)
    ∧ (GetServices exEnv exNodeDup).calls
        = Call.GetSystemState
          :: exStateDup.ProvidedServices.map (fun e => Call.LookupService e.Name)
      ∧ (∀ name, (GetServices exEnv exNodeDup).calls.count (Call.LookupService name)
          = (exStateDup.ProvidedServices.map (fun e => e.Name)).count name)
      ∧ ((exStateDup.ProvidedServices.map (fun e => e.Name)).Nodup →
          ∀ e ∈ exStateDup.ProvidedServices,
            (GetServices exEnv exNodeDup).calls.count (Call.LookupService e.Name) = 1) :=
  ⟨⟨rfl, by decide⟩, GetServices_calls exEnv exNodeDup exStateDup rfl (by decide)⟩

/-! ## GetMachines -/

theorem GetNodes_ok_or_fail (env : Env) (n : Node) :
    (∃ ret, (GetNodes env n).val = some ret ∧ (GetNodes env n).err = none)
      ∨ ((GetNodes env n).val = none ∧ ∃ e, (GetNodes env n).err = some e) := by
  cases hst : n.apiMasterClient.GetSystemState with
  | error e =>
    right
    rw [GetNodes_of_error env n e hst]
    exact ⟨rfl, e, rfl⟩
  | ok st =>
    by_cases hall : ∀ k ∈ nodeNames st, ∃ a, nodeAddress env n k = some a
    · left
      obtain ⟨ret, h1, _⟩ := GetNodes_of_resolved env n st hst hall
      exact ⟨ret, by rw [h1], by rw [h1]⟩
    · right
      apply GetNodes_of_unresolved env n st hst
      by_contra hcon
      apply hall
      intro k hk
      cases hn : nodeAddress env n k with
      | none => exact absurd ⟨k, hk, hn⟩ hcon
      | some a => exact ⟨a, rfl⟩

theorem machinesStep_cases (env : Env) (nodes : GoMap InfoNode) (ret : List String)
    (key : String) :
    (machinesStep env nodes ret key = ret
        ∧ ∀ info host port, mapGet nodes key = some info →
            env.SplitHostPort info.Address ≠ .ok (host, port))
      ∨ ∃ info host port, mapGet nodes key = some info
          ∧ env.SplitHostPort info.Address = .ok (host, port)
          ∧ machinesStep env nodes ret key = setAdd ret host := by
  unfold machinesStep
  cases hg : mapGet nodes key with
  | none =>
    left
    refine ⟨rfl, ?_⟩
    intro info host port h
    cases h
  | some info =>
    cases hs : env.SplitHostPort info.Address with
    | error e =>
      left
      refine ⟨by simp [hs], ?_⟩
      intro info2 host port h
      cases h
      rw [hs]
      intro h2
      cases h2
    | ok hp =>
      right
      exact ⟨info, hp.1, hp.2, rfl, hs, by simp [hs]⟩

theorem mem_foldl_machinesStep (env : Env) (nodes : GoMap InfoNode) (keys : List String)
    (ret : List String) (h : String) :
    h ∈ keys.foldl (machinesStep env nodes) ret
      ↔ h ∈ ret ∨ ∃ k ∈ keys, ∃ info port,
          mapGet nodes k = some info ∧ env.SplitHostPort info.Address = .ok (h, port) := by
  induction keys generalizing ret with
  | nil => simp
  | cons a keys ih =>
    rw [List.foldl_cons, ih]
    simp only [List.mem_cons, exists_eq_or_imp]
    rcases machinesStep_cases env nodes ret a with ⟨heq, hno⟩ | ⟨info, host, port, hg, hs, heq⟩
    · rw [heq]
      constructor
      · rintro (h1 | h1)
        · exact Or.inl h1
        · exact Or.inr (Or.inr h1)
      · rintro (h1 | ⟨info, port, hg, hs⟩ | h1)
        · exact Or.inl h1
        · exact absurd hs (hno info h port hg)
        · exact Or.inr h1
    · rw [heq, mem_setAdd]
      constructor
      · rintro ((h1 | h1) | h1)
        · exact Or.inl h1
        · subst h1
          exact Or.inr (Or.inl ⟨info, port, hg, hs⟩)
        · exact Or.inr (Or.inr h1)
      · rintro (h1 | ⟨info2, port2, hg2, hs2⟩ | h1)
        · exact Or.inl (Or.inl h1)
        · rw [hg] at hg2
          cases hg2
          rw [hs] at hs2
          cases hs2
          exact Or.inl (Or.inr rfl)
        · exact Or.inr h1

theorem nodup_foldl_machinesStep (env : Env) (nodes : GoMap InfoNode) (keys : List String)
    (ret : List String) (h : ret.Nodup) : (keys.foldl (machinesStep env nodes) ret).Nodup := by
  induction keys generalizing ret with
  | nil => exact h
  | cons a keys ih =>
    rw [List.foldl_cons]
    apply ih
    rcases machinesStep_cases env nodes ret a with ⟨heq, _⟩ | ⟨info, host, port, _, _, heq⟩
    · rw [heq]
      exact h
    · rw [heq]
      exact nodup_setAdd ret host h

/-- C13: `GetMachines` returns the error of `GetNodes`, so it fails exactly when
`GetNodes` fails, and then with the `nil` map; when `GetNodes` succeeds with the map
`nodes`, `GetMachines` returns a set without repetition that holds exactly the hosts `h`
such that `net.SplitHostPort` splits the `Address` of a node of `nodes` into `h` and a
port. A node whose address does not split adds nothing and causes no failure. -/
theorem GetMachines_hosts (env : Env) (n : Node) :
    (GetMachines env n).err = (GetNodes env n).err
    ∧ ((∃ e, (GetNodes env n).err = some e) → (GetMachines env n).val = none)
    ∧ (∀ nodes, (GetNodes env n).err = none → (GetNodes env n).val = some nodes →
        ∃ hosts, (GetMachines env n).val = some hosts ∧ hosts.Nodup
          ∧ ∀ h, h ∈ hosts ↔ ∃ k info port,
              mapGet nodes k = some info ∧ env.SplitHostPort info.Address = .ok (h, port)) := by
  refine ⟨?_, ?_, ?_⟩
  · unfold GetMachines
    cases h : (GetNodes env n).err <;> simp [h]
  · rintro ⟨e, he⟩
    unfold GetMachines
    simp [he]
  · intro nodes herr hval
    refine ⟨(env.rangeOrder (mapKeys nodes)).foldl (machinesStep env nodes) [], ?_, ?_, ?_⟩
    · unfold GetMachines
      simp [herr, hval]
    · exact nodup_foldl_machinesStep env nodes _ [] List.nodup_nil
    · intro h
      rw [mem_foldl_machinesStep]
      simp only [List.not_mem_nil, false_or]
      constructor
      · rintro ⟨k, _, info, port, h1, h2⟩
        exact ⟨k, info, port, h1, h2⟩
      · rintro ⟨k, info, port, h1, h2⟩
        refine ⟨k, ?_, info, port, h1, h2⟩
        rw [mem_rangeOrder]
        exact (mapGet_isSome_iff nodes k).1 ⟨info, h1⟩

/-- C13, at the examples: `/lidar` is at `a:1`, `/nav` at `b:2` and `/only` at `a:3`, and
the hosts are `a` and `b`; on a master that does not know `/nav`, both calls fail. -/
theorem GetMachines_hosts_witness :
    ((GetNodes exEnv exNode).err = none ∧ (GetNodes exEnv exNode).val = some exNodes
      ∧ (GetMachines exEnv exNode).val = some ["a", "b"]
      ∧ ∃ e, (GetNodes exEnv exNodeNoNav).err = some e)
    ∧ (GetMachines exEnv exNodeNoNav).val = none
    ∧ ∃ hosts, (GetMachines exEnv exNode).val = some hosts ∧ hosts.Nodup
        ∧ ∀ h, h ∈ hosts ↔ ∃ k info port,
            mapGet exNodes k = some info
              ∧ exEnv.SplitHostPort info.Address = .ok (h, port) :=
  ⟨⟨by decide, by decide, by decide, ⟨"lookupNode: unknown node", by decide⟩⟩,
    (GetMachines_hosts exEnv exNodeNoNav).2.1 ⟨"lookupNode: unknown node", by decide⟩,
    (GetMachines_hosts exEnv exNode).2.2 exNodes (by decide) (by decide)⟩

/-! ## GetNodes: two calls, and the calls of LookupNode -/

theorem goMap_ext {V : Type} (m1 m2 : GoMap V) (hkeys : mapKeys m1 = mapKeys m2)
    (hnodup : (mapKeys m1).Nodup) (hget : ∀ k, mapGet m1 k = mapGet m2 k) : m1 = m2 := by
  induction m1 generalizing m2 with
  | nil =>
    cases m2 with
    | nil => rfl
    | cons p m2 => simp [mapKeys] at hkeys
  | cons p m1 ih =>
    cases m2 with
    | nil => simp [mapKeys] at hkeys
    | cons q m2 =>
      obtain ⟨k, v⟩ := p
      obtain ⟨k2, v2⟩ := q
      simp only [mapKeys, List.map_cons, List.cons.injEq] at hkeys
      obtain ⟨hk, htail⟩ := hkeys
      subst hk
      have hv : v = v2 := by
        have := hget k
        simpa [mapGet] using this
      subst hv
      have hnot : k ∉ mapKeys m1 := by
        simp only [mapKeys, List.map_cons, List.nodup_cons] at hnodup
        exact hnodup.1
      have hnodup2 : (mapKeys m1).Nodup := by
        simp only [mapKeys, List.map_cons, List.nodup_cons] at hnodup
        exact hnodup.2
      have hnot2 : k ∉ mapKeys m2 := by
        have : mapKeys m1 = mapKeys m2 := htail
        rw [← this]
        exact hnot
      have hrest : ∀ j, mapGet m1 j = mapGet m2 j := by
        intro j
        by_cases hj : k = j
        · subst hj
          rw [(mapGet_eq_none_iff m1 k).2 hnot, (mapGet_eq_none_iff m2 k).2 hnot2]
        · have := hget j
          simpa [mapGet, hj] using this
      rw [ih m2 htail hnodup2 hrest]

theorem nodeAddress_congr (env1 env2 : Env) (n : Node)
    (hurl : env2.urlToAddress = env1.urlToAddress) (k : String) :
    nodeAddress env2 n k = nodeAddress env1 n k := by
  simp only [nodeAddress, hurl]

theorem nodesLookup_congr (env1 env2 : Env) (n : Node)
    (hurl : env2.urlToAddress = env1.urlToAddress) (keys : List String)
    (ret : GoMap InfoNode) (calls : List Call) :
    nodesLookup env2 n keys ret calls = nodesLookup env1 n keys ret calls := by
  induction keys generalizing ret calls with
  | nil => rfl
  | cons a keys ih => simp only [nodesLookup, hurl, ih]

theorem nodesLookup_calls (env : Env) (n : Node) (keys : List String) (ret : GoMap InfoNode)
    (calls : List Call) :
    ∀ c ∈ (nodesLookup env n keys ret calls).calls, c ∈ calls ∨ ∃ k, c = Call.LookupNode k := by
  induction keys generalizing ret calls with
  | nil =>
    intro c hc
    exact Or.inl hc
  | cons a keys ih =>
    intro c hc
    simp only [nodesLookup] at hc
    cases h1 : n.apiMasterClient.LookupNode a with
    | error e =>
      simp only [h1, List.mem_append, List.mem_singleton] at hc
      rcases hc with hc | hc
      · exact Or.inl hc
      · exact Or.inr ⟨a, hc⟩
    | ok url =>
      cases h2 : env.urlToAddress url with
      | error e =>
        simp only [h1, h2, List.mem_append, List.mem_singleton] at hc
        rcases hc with hc | hc
        · exact Or.inl hc
        · exact Or.inr ⟨a, hc⟩
      | ok addr =>
        simp only [h1, h2] at hc
        rcases ih _ _ c hc with hc2 | hc2
        · rcases List.mem_append.1 hc2 with hc3 | hc3
          · exact Or.inl hc3
          · exact Or.inr ⟨a, by simpa using hc3⟩
        · exact Or.inr hc2

theorem GetNodes_val_some_resolved (env : Env) (n : Node) (st : SystemState)
    (ret : GoMap InfoNode) (hst : n.apiMasterClient.GetSystemState = .ok st)
    (hret : (GetNodes env n).val = some ret) :
    ∀ k ∈ nodeNames st, ∃ a, nodeAddress env n k = some a := by
  by_contra hcon
  have hsome : ∃ k ∈ nodeNames st, nodeAddress env n k = none := by
    by_contra hcon2
    apply hcon
    intro k hk
    cases hn : nodeAddress env n k with
    | none => exact absurd ⟨k, hk, hn⟩ hcon2
    | some a => exact ⟨a, rfl⟩
  rw [(GetNodes_of_unresolved env n st hst hsome).1] at hret
  cases hret

theorem GetNodes_val_congr (env1 env2 : Env) (n : Node)
    (hurl : env2.urlToAddress = env1.urlToAddress) :
    (GetNodes env1 n).val = (GetNodes env2 n).val
      ∧ ((GetNodes env1 n).err = none ↔ (GetNodes env2 n).err = none) := by
  cases hst : n.apiMasterClient.GetSystemState with
  | error e =>
    rw [GetNodes_of_error env1 n e hst, GetNodes_of_error env2 n e hst]
    exact ⟨rfl, Iff.rfl⟩
  | ok st =>
    by_cases hall : ∀ k ∈ nodeNames st, ∃ a, nodeAddress env1 n k = some a
    · have hall2 : ∀ k ∈ nodeNames st, ∃ a, nodeAddress env2 n k = some a := by
        intro k hk
        rw [nodeAddress_congr env1 env2 n hurl]
        exact hall k hk
      obtain ⟨ret1, h1, hk1, hv1⟩ := GetNodes_of_resolved env1 n st hst hall
      obtain ⟨ret2, h2, hk2, hv2⟩ := GetNodes_of_resolved env2 n st hst hall2
      rw [h1, h2]
      refine ⟨?_, Iff.rfl⟩
      have heq : ret1 = ret2 := by
        apply goMap_ext ret1 ret2 (hk1.trans hk2.symm)
        · rw [hk1]
          exact nodup_mapKeys_nodesOfState st
        · intro k
          cases hg1 : mapGet ret1 k with
          | none =>
            have hnot : k ∉ mapKeys ret2 := by
              rw [hk2, ← hk1]
              exact (mapGet_eq_none_iff ret1 k).1 hg1
            rw [(mapGet_eq_none_iff ret2 k).2 hnot]
          | some i1 =>
            have hin : k ∈ mapKeys ret2 := by
              rw [hk2, ← hk1]
              exact (mapGet_isSome_iff ret1 k).1 ⟨i1, hg1⟩
            obtain ⟨i2, hg2⟩ := (mapGet_isSome_iff ret2 k).2 hin
            rw [hg2]
            obtain ⟨e1, a1⟩ := hv1 k i1 hg1
            obtain ⟨e2, a2⟩ := hv2 k i2 hg2
            rw [nodeAddress_congr env1 env2 n hurl, a1] at a2
            simp only [Option.some.injEq] at a2
            rw [e1, e2, a2]
      rw [heq]
    · have hsome : ∃ k ∈ nodeNames st, nodeAddress env1 n k = none := by
        by_contra hcon
        apply hall
        intro k hk
        cases hn : nodeAddress env1 n k with
        | none => exact absurd ⟨k, hk, hn⟩ hcon
        | some a => exact ⟨a, rfl⟩
      have hsome2 : ∃ k ∈ nodeNames st, nodeAddress env2 n k = none := by
        obtain ⟨k, hk, hn⟩ := hsome
        exact ⟨k, hk, by rw [nodeAddress_congr env1 env2 n hurl]; exact hn⟩
      obtain ⟨v1, x1, hx1⟩ := GetNodes_of_unresolved env1 n st hst hsome
      obtain ⟨v2, x2, hx2⟩ := GetNodes_of_unresolved env2 n st hst hsome2
      rw [v1, v2, hx1, hx2]
      simp

/-- C14: two calls of `GetNodes` on the same node and master, with the same address
resolver, whatever the order in which `range` walks the map in each of them, return the
same map, with the same sets, or both fail; with the same order they return the same
error as well. The only calls `GetNodes` sends to the master are the queries
`GetSystemState` and `LookupNode`. -/
theorem GetNodes_idempotent (env1 env2 : Env) (n : Node)
    (hurl : env2.urlToAddress = env1.urlToAddress) :
    (GetNodes env1 n).val = (GetNodes env2 n).val
    ∧ ((GetNodes env1 n).err = none ↔ (GetNodes env2 n).err = none)
    ∧ (∀ ret1 ret2, (GetNodes env1 n).val = some ret1 → (GetNodes env2 n).val = some ret2 →
        (∀ k, k ∈ mapKeys ret1 ↔ k ∈ mapKeys ret2)
        ∧ ∀ k i1 i2, mapGet ret1 k = some i1 → mapGet ret2 k = some i2 →
            i1.Address = i2.Address
            ∧ (∀ x, x ∈ i1.PublishedTopics ↔ x ∈ i2.PublishedTopics)
            ∧ (∀ x, x ∈ i1.SubscribedTopics ↔ x ∈ i2.SubscribedTopics)
            ∧ (∀ x, x ∈ i1.ProvidedServices ↔ x ∈ i2.ProvidedServices))
    ∧ (env2.rangeOrder = env1.rangeOrder → GetNodes env2 n = GetNodes env1 n)
    ∧ (∀ c ∈ (GetNodes env1 n).calls, c = Call.GetSystemState ∨ ∃ k, c = Call.LookupNode k) := by
  obtain ⟨hval, herr⟩ := GetNodes_val_congr env1 env2 n hurl
  refine ⟨hval, herr, ?_, ?_, ?_⟩
  · intro ret1 ret2 h1 h2
    rw [hval, h2] at h1
    simp only [Option.some.injEq] at h1
    subst h1
    refine ⟨fun k => Iff.rfl, ?_⟩
    intro k i1 i2 hg1 hg2
    rw [hg1] at hg2
    simp only [Option.some.injEq] at hg2
    subst hg2
    exact ⟨rfl, fun x => Iff.rfl, fun x => Iff.rfl, fun x => Iff.rfl⟩
  · intro horder
    simp only [GetNodes, horder]
    cases n.apiMasterClient.GetSystemState with
    | error e => rfl
    | ok st => exact nodesLookup_congr env1 env2 n hurl _ _ _
  · intro c hc
    simp only [GetNodes] at hc
    cases hst : n.apiMasterClient.GetSystemState with
    | error e =>
      simp only [hst, List.mem_singleton] at hc
      exact Or.inl hc
    | ok st =>
      simp only [hst] at hc
      rcases nodesLookup_calls env1 n _ _ _ c hc with h | h
      · exact Or.inl (by simpa using h)
      · exact Or.inr h

/-- C14, at the examples: one call walks the map from the last key to the first, the
other in the order of insertion. -/
theorem GetNodes_idempotent_witness :
    exEnvForward.urlToAddress = exEnv.urlToAddress
    ∧ (GetNodes exEnv exNode).val = (GetNodes exEnvForward exNode).val
    ∧ ((GetNodes exEnv exNode).err = none ↔ (GetNodes exEnvForward exNode).err = none)
    ∧ (∀ ret1 ret2, (GetNodes exEnv exNode).val = some ret1 →
        (GetNodes exEnvForward exNode).val = some ret2 →
        (∀ k, k ∈ mapKeys ret1 ↔ k ∈ mapKeys ret2)
        ∧ ∀ k i1 i2, mapGet ret1 k = some i1 → mapGet ret2 k = some i2 →
            i1.Address = i2.Address
            ∧ (∀ x, x ∈ i1.PublishedTopics ↔ x ∈ i2.PublishedTopics)
            ∧ (∀ x, x ∈ i1.SubscribedTopics ↔ x ∈ i2.SubscribedTopics)
            ∧ (∀ x, x ∈ i1.ProvidedServices ↔ x ∈ i2.ProvidedServices))
    ∧ (exEnvForward.rangeOrder = exEnv.rangeOrder →
        GetNodes exEnvForward exNode = GetNodes exEnv exNode)
    ∧ (∀ c ∈ (GetNodes exEnv exNode).calls,
        c = Call.GetSystemState ∨ ∃ k, c = Call.LookupNode k) :=
  ⟨rfl, GetNodes_idempotent exEnv exEnvForward exNode rfl⟩

/-- C18: when `GetNodes` succeeds on the state `st`, the `Address` of every node of the
result is `urlToAddress` applied to the URL that `LookupNode` returns for the node; the
calls of `GetNodes` are `GetSystemState`, then one `LookupNode` for each key of the map
that the three loops over `st` have built, in the order of `range`: every node name of
`st` is looked up exactly once, and no other name is looked up. -/
theorem GetNodes_lookups (env : Env) (n : Node) (st : SystemState) (ret : GoMap InfoNode)
    (hst : n.apiMasterClient.GetSystemState = .ok st)
    (hret : (GetNodes env n).val = some ret) :
    (∀ k info, mapGet ret k = some info →
        ∃ url, n.apiMasterClient.LookupNode k = .ok url
          ∧ env.urlToAddress url = .ok info.Address)
    ∧ (GetNodes env n).calls
        = Call.GetSystemState
          :: (env.rangeOrder (mapKeys (nodesOfState st))).map Call.LookupNode
    ∧ (env.rangeOrder (mapKeys (nodesOfState st))).Perm (mapKeys ret)
    ∧ (∀ k ∈ nodeNames st, (GetNodes env n).calls.count (Call.LookupNode k) = 1)
    ∧ (∀ k, k ∉ nodeNames st → (GetNodes env n).calls.count (Call.LookupNode k) = 0) := by
  obtain ⟨ret2, h1, h2, h3⟩ :=
    GetNodes_of_resolved env n st hst (GetNodes_val_some_resolved env n st ret hst hret)
  have hret2 : ret2 = ret := by
    rw [h1] at hret
    simpa using hret
  subst hret2
  have hinj : Function.Injective Call.LookupNode := by
    intro a b hab
    cases hab
    rfl
  have hperm : (env.rangeOrder (mapKeys (nodesOfState st))).Perm (mapKeys (nodesOfState st)) :=
    env.rangeOrder_perm _
  have hcount : ∀ k, (GetNodes env n).calls.count (Call.LookupNode k)
      = (mapKeys (nodesOfState st)).count k := by
    intro k
    rw [h1]
    simp only
    rw [List.count_cons_of_ne (by simp), List.count_map_of_injective _ _ hinj,
      hperm.count_eq]
  refine ⟨?_, by rw [h1], by rw [h2]; exact hperm, ?_, ?_⟩
  · intro k info hinfo
    exact (nodeAddress_eq_some_iff env n k info.Address).1 (h3 k info hinfo).2
  · intro k hk
    rw [hcount]
    exact List.count_eq_one_of_mem (nodup_mapKeys_nodesOfState st)
      ((mem_mapKeys_nodesOfState st k).2 hk)
  · intro k hk
    rw [hcount]
    exact List.count_eq_zero_of_not_mem (fun h => hk ((mem_mapKeys_nodesOfState st k).1 h))

/-- C18, at the examples: the calls are `GetSystemState` and the lookups of `/only`,
`/nav` and `/lidar`. -/
theorem GetNodes_lookups_witness :
    (exNode.apiMasterClient.GetSystemState = .ok exState
      ∧ (GetNodes exEnv exNode).val = some exNodes
      ∧ (GetNodes exEnv exNode).calls
          = [Call.GetSystemState, Call.LookupNode "/only", Call.LookupNode "/nav",
              Call.LookupNode "/lidar"])
    ∧ (∀ k info, mapGet exNodes k = some info →
        ∃ url, exNode.apiMasterClient.LookupNode k = .ok url
          ∧ exEnv.urlToAddress url = .ok info.Address)
      ∧ (GetNodes exEnv exNode).calls
          = Call.GetSystemState
            :: (exEnv.rangeOrder (mapKeys (nodesOfState exState))).map Call.LookupNode
      ∧ (exEnv.rangeOrder (mapKeys (nodesOfState exState))).Perm (mapKeys exNodes)
      ∧ (∀ k ∈ nodeNames exState, (GetNodes exEnv exNode).calls.count (Call.LookupNode k) = 1)
      ∧ (∀ k, k ∉ nodeNames exState →
          (GetNodes exEnv exNode).calls.count (Call.LookupNode k) = 0) :=
  ⟨⟨rfl, by decide, by decide⟩,
    GetNodes_lookups exEnv exNode exState exNodes rfl (by decide)⟩

/-! ## PingNode and KillNode -/

theorem except_cases {ε α : Type} (x : Except ε α) :
    (∃ e, x = .error e) ∨ ∃ a, x = .ok a := by
  cases x with
  | error e => exact Or.inl ⟨e, rfl⟩
  | ok a => exact Or.inr ⟨a, rfl⟩

/-- C15: `PingNode` succeeds exactly when `LookupNode`, `urlToAddress` and the `GetPid`
request to the peer succeed, and then its duration, the difference of two readings of
the monotonic clock, is at least 0; when `GetPid` fails, `PingNode` returns the error of
`GetPid` as it is, with the duration 0, after this one request; it never sends more than
one `GetPid` request. -/
theorem PingNode_result (env : Env) (n : Node) (nodeName : String) :
    ((PingNode env n nodeName).err = none ↔
        ∃ url address pid, n.apiMasterClient.LookupNode nodeName = .ok url
          ∧ env.urlToAddress url = .ok address
          ∧ env.GetPid address n.absoluteName = .ok pid)
    ∧ ((PingNode env n nodeName).err = none → 0 ≤ (PingNode env n nodeName).dur)
    ∧ (∀ url address e, n.apiMasterClient.LookupNode nodeName = .ok url →
        env.urlToAddress url = .ok address →
        env.GetPid address n.absoluteName = .error e →
        (PingNode env n nodeName).err = some e ∧ (PingNode env n nodeName).dur = 0
          ∧ (PingNode env n nodeName).calls
              = [Call.LookupNode nodeName, Call.GetPid address n.absoluteName])
    ∧ ((PingNode env n nodeName).calls.filter isGetPid).length ≤ 1 := by
  rcases except_cases (n.apiMasterClient.LookupNode nodeName) with ⟨e, h1⟩ | ⟨url, h1⟩
  · have hP : PingNode env n nodeName = ⟨0, some e, [Call.LookupNode nodeName]⟩ := by
      simp [PingNode, h1]
    rw [hP]
    refine ⟨⟨(fun h => by cases h), ?_⟩, (fun h => by cases h), ?_, (by simp [isGetPid])⟩
    · rintro ⟨u, a, p, hu, _, _⟩
      rw [h1] at hu
      cases hu
    · intro u a e2 hu
      rw [h1] at hu
      cases hu
  · rcases except_cases (env.urlToAddress url) with ⟨e, h2⟩ | ⟨address, h2⟩
    · have hP : PingNode env n nodeName = ⟨0, some e, [Call.LookupNode nodeName]⟩ := by
        simp [PingNode, h1, h2]
      rw [hP]
      refine ⟨⟨(fun h => by cases h), ?_⟩, (fun h => by cases h), ?_, (by simp [isGetPid])⟩
      · rintro ⟨u, a, p, hu, ha, _⟩
        rw [h1] at hu
        cases hu
        rw [h2] at ha
        cases ha
      · intro u a e2 hu ha
        rw [h1] at hu
        cases hu
        rw [h2] at ha
        cases ha
    · rcases except_cases (env.GetPid address n.absoluteName) with ⟨e, h3⟩ | ⟨pid, h3⟩
      · have hP : PingNode env n nodeName
            = ⟨0, some e, [Call.LookupNode nodeName, Call.GetPid address n.absoluteName]⟩ := by
          simp [PingNode, h1, h2, h3]
        rw [hP]
        refine ⟨⟨(fun h => by cases h), ?_⟩, (fun h => by cases h), ?_, (by simp [isGetPid])⟩
        · rintro ⟨u, a, p, hu, ha, hp⟩
          rw [h1] at hu
          cases hu
          rw [h2] at ha
          cases ha
          rw [h3] at hp
          cases hp
        · intro u a e2 hu ha hp
          rw [h1] at hu
          cases hu
          rw [h2] at ha
          cases ha
          rw [h3] at hp
          cases hp
          exact ⟨rfl, rfl, rfl⟩
      · have hP : PingNode env n nodeName
            = ⟨env.clock 1 - env.clock 0, none,
                [Call.LookupNode nodeName, Call.GetPid address n.absoluteName]⟩ := by
          simp [PingNode, h1, h2, h3]
        rw [hP]
        refine ⟨⟨fun _ => ⟨url, address, pid, h1, h2, h3⟩, fun _ => rfl⟩, ?_, ?_,
          (by simp [isGetPid])⟩
        · intro _
          have hmono : env.clock 0 ≤ env.clock 1 := env.clock_mono 0
          show 0 ≤ env.clock 1 - env.clock 0
          omega
        · intro u a e2 hu ha hp
          rw [h1] at hu
          cases hu
          rw [h2] at ha
          cases ha
          rw [h3] at hp
          cases hp

/-- C15, at the examples: the peer of `/lidar` answers, that of `/nav` does not. -/
theorem PingNode_result_witness :
    ((PingNode exEnv exNode "/lidar").err = none ∧ (PingNode exEnv exNode "/lidar").dur = 250
      ∧ exNode.apiMasterClient.LookupNode "/nav" = .ok "http://b:2"
      ∧ exEnv.urlToAddress "http://b:2" = .ok "b:2"
      ∧ exEnv.GetPid "b:2" exNode.absoluteName = .error "unreachable")
    ∧ 0 ≤ (PingNode exEnv exNode "/lidar").dur
    ∧ ((PingNode exEnv exNode "/nav").err = some "unreachable"
      ∧ (PingNode exEnv exNode "/nav").dur = 0
      ∧ (PingNode exEnv exNode "/nav").calls
          = [Call.LookupNode "/nav", Call.GetPid "b:2" exNode.absoluteName]) :=
  ⟨⟨by decide, by decide, rfl, rfl, rfl⟩,
    (PingNode_result exEnv exNode "/lidar").2.1 (by decide),
    (PingNode_result exEnv exNode "/nav").2.2.1 "http://b:2" "b:2" "unreachable" rfl rfl rfl⟩

/-- C16: `KillNode` calls `LookupNode` once; when the lookup or `urlToAddress` fails it
returns that error and sends no `Shutdown` request; otherwise it sends one `Shutdown`
request to the resolved address, with the empty reason, and returns its error, if any.
It succeeds exactly when the lookup, the resolution and the request succeed. -/
theorem KillNode_result (env : Env) (n : Node) (nodeName : String) :
    ((KillNode env n nodeName).err = none ↔
        ∃ url address, n.apiMasterClient.LookupNode nodeName = .ok url
          ∧ env.urlToAddress url = .ok address
          ∧ env.Shutdown address n.absoluteName "" = .ok ())
    ∧ (∀ e, n.apiMasterClient.LookupNode nodeName = .error e →
        (KillNode env n nodeName).err = some e
          ∧ (KillNode env n nodeName).calls = [Call.LookupNode nodeName])
    ∧ (∀ url e, n.apiMasterClient.LookupNode nodeName = .ok url →
        env.urlToAddress url = .error e →
        (KillNode env n nodeName).err = some e
          ∧ (KillNode env n nodeName).calls = [Call.LookupNode nodeName])
    ∧ (∀ url address, n.apiMasterClient.LookupNode nodeName = .ok url →
        env.urlToAddress url = .ok address →
        (KillNode env n nodeName).calls
            = [Call.LookupNode nodeName, Call.Shutdown address n.absoluteName ""]
          ∧ ∀ e, env.Shutdown address n.absoluteName "" = .error e →
              (KillNode env n nodeName).err = some e)
    ∧ ((KillNode env n nodeName).calls.filter isShutdown).length ≤ 1 := by
  rcases except_cases (n.apiMasterClient.LookupNode nodeName) with ⟨e, h1⟩ | ⟨url, h1⟩
  · have hK : KillNode env n nodeName = ⟨some e, [Call.LookupNode nodeName]⟩ := by
      simp [KillNode, h1]
    rw [hK]
    refine ⟨⟨(fun h => by cases h), ?_⟩, ?_, ?_, ?_, (by simp [isShutdown])⟩
    · rintro ⟨u, a, hu, _, _⟩
      rw [h1] at hu
      cases hu
    · intro e2 he
      rw [h1] at he
      cases he
      exact ⟨rfl, rfl⟩
    · intro u e2 hu
      rw [h1] at hu
      cases hu
    · intro u a hu
      rw [h1] at hu
      cases hu
  · rcases except_cases (env.urlToAddress url) with ⟨e, h2⟩ | ⟨address, h2⟩
    · have hK : KillNode env n nodeName = ⟨some e, [Call.LookupNode nodeName]⟩ := by
        simp [KillNode, h1, h2]
      rw [hK]
      refine ⟨⟨(fun h => by cases h), ?_⟩, ?_, ?_, ?_, (by simp [isShutdown])⟩
      · rintro ⟨u, a, hu, ha, _⟩
        rw [h1] at hu
        cases hu
        rw [h2] at ha
        cases ha
      · intro e2 he
        rw [h1] at he
        cases he
      · intro u e2 hu he
        rw [h1] at hu
        cases hu
        rw [h2] at he
        cases he
        exact ⟨rfl, rfl⟩
      · intro u a hu ha
        rw [h1] at hu
        cases hu
        rw [h2] at ha
        cases ha
    · rcases except_cases (env.Shutdown address n.absoluteName "") with ⟨e, h3⟩ | ⟨u, h3⟩
      · have hK : KillNode env n nodeName
            = ⟨some e, [Call.LookupNode nodeName, Call.Shutdown address n.absoluteName ""]⟩ := by
          simp [KillNode, h1, h2, h3]
        rw [hK]
        refine ⟨⟨(fun h => by cases h), ?_⟩, ?_, ?_, ?_, (by simp [isShutdown])⟩
        · rintro ⟨u, a, hu, ha, hs⟩
          rw [h1] at hu
          cases hu
          rw [h2] at ha
          cases ha
          rw [h3] at hs
          cases hs
        · intro e2 he
          rw [h1] at he
          cases he
        · intro u e2 hu he
          rw [h1] at hu
          cases hu
          rw [h2] at he
          cases he
        · intro u a hu ha
          rw [h1] at hu
          cases hu
          rw [h2] at ha
          cases ha
          refine ⟨rfl, ?_⟩
          intro e2 he
          rw [h3] at he
          cases he
          rfl
      · have hK : KillNode env n nodeName
            = ⟨none, [Call.LookupNode nodeName, Call.Shutdown address n.absoluteName ""]⟩ := by
          simp [KillNode, h1, h2, h3]
        rw [hK]
        refine ⟨⟨fun _ => ⟨url, address, h1, h2, h3⟩, fun _ => rfl⟩, ?_, ?_, ?_,
          (by simp [isShutdown])⟩
        · intro e2 he
          rw [h1] at he
          cases he
        · intro u2 e2 hu he
          rw [h1] at hu
          cases hu
          rw [h2] at he
          cases he
        · intro u2 a hu ha
          rw [h1] at hu
          cases hu
          rw [h2] at ha
          cases ha
          refine ⟨rfl, ?_⟩
          intro e2 he
          rw [h3] at he
          cases he

/-- C16, at the examples: `/lidar` is shut down, `/nope` is unknown to the master, and
the peer of `/nav` does not answer. -/
theorem KillNode_result_witness :
    ((KillNode exEnv exNode "/lidar").err = none
      ∧ (KillNode exEnv exNode "/lidar").calls
          = [Call.LookupNode "/lidar", Call.Shutdown "a:1" "/me" ""])
    ∧ ((KillNode exEnv exNode "/nope").err = some "unknown node"
      ∧ (KillNode exEnv exNode "/nope").calls = [Call.LookupNode "/nope"])
    ∧ ((KillNode exEnv exNode "/nav").calls
          = [Call.LookupNode "/nav", Call.Shutdown "b:2" exNode.absoluteName ""]
      ∧ ∀ e, exEnv.Shutdown "b:2" exNode.absoluteName "" = .error e →
          (KillNode exEnv exNode "/nav").err = some e) :=
  ⟨⟨by decide, by decide⟩,
    (KillNode_result exEnv exNode "/nope").2.1 "unknown node" rfl,
    (KillNode_result exEnv exNode "/nav").2.2.2.1 "http://b:2" "b:2" rfl rfl⟩

/-! ## GetNodeConns: the error, and the length of the direction -/

theorem connsLoop_first_fail (pre : List (List Value)) (bad : List Value)
    (post : List (List Value)) (ret : Option (List InfoConnection)) (calls : List Call)
    (hpre : ∀ i ∈ pre, ¬ malformed i) (hbad : malformed bad) :
    connsLoop (pre ++ bad :: post) ret calls = ⟨none, some (invalidEntry bad), calls⟩ := by
  induction pre generalizing ret with
  | nil => simp [connsLoop, (connOfEntry_error_iff bad).2 hbad]
  | cons i pre ih =>
    obtain ⟨conn, hc⟩ := (connOfEntry_ok_iff i).2 (hpre i (List.mem_cons_self i pre))
    rw [List.cons_append]
    simp only [connsLoop, hc]
    exact ih _ (fun j hj => hpre j (List.mem_cons_of_mem i hj))

/-- C17: when the node lookup, the address resolution and the bus-info query succeed and
the answer holds a malformed tuple `bad` after well-formed tuples only, `GetNodeConns`
returns the `nil` slice and the error of `bad`, whatever follows `bad` in the answer: its
text is `invalid entry: `, then the tuple as `%v` prints it, the texts of the fields
between brackets, separated by a blank. -/
theorem GetNodeConns_error (env : Env) (n : Node) (nodeName url address : String)
    (pre : List (List Value)) (bad : List Value) (post : List (List Value))
    (h1 : n.apiMasterClient.LookupNode nodeName = .ok url)
    (h2 : env.urlToAddress url = .ok address)
    (h3 : env.GetBusInfo address n.absoluteName = .ok (pre ++ bad :: post))
    (hpre : ∀ i ∈ pre, ¬ malformed i) (hbad : malformed bad) :
    (GetNodeConns env n nodeName).val = none
    ∧ (GetNodeConns env n nodeName).err = some (invalidEntry bad)
    ∧ invalidEntry bad
        = "invalid entry: " ++ ("[" ++ " ".intercalate (bad.map fmtValue) ++ "]") := by
  rw [GetNodeConns_of_infos env n nodeName url address _ h1 h2 h3,
    connsLoop_first_fail pre bad post none _ hpre hbad]
  refine ⟨rfl, rfl, ?_⟩
  unfold invalidEntry
  have hlit : "invalid entry: [" = "invalid entry: " ++ "[" := by decide
  rw [hlit, String.append_assoc, String.append_assoc, String.append_assoc]

/-- C17, at the node `/nav` of the examples: the second tuple of the answer is the first
malformed one, and the error is built from it. -/
theorem GetNodeConns_error_witness :
    (exNode.apiMasterClient.LookupNode "/nav" = .ok "http://b:2"
      ∧ exEnv.urlToAddress "http://b:2" = .ok "b:2"
      ∧ exEnv.GetBusInfo "b:2" exNode.absoluteName
          = .ok ([[Value.int 1, .str "http://x:1", .str "o", .str "TCPROS", .str "/tf",
                .bool true]]
              ++ [.int 2, .str "http://x:1", .str "io", .str "TCPROS", .str "/scan", .bool true]
                :: [])
      ∧ malformed [.int 2, .str "http://x:1", .str "io", .str "TCPROS", .str "/scan", .bool true]
      ∧ (GetNodeConns exEnv exNode "/nav").err
          = some "invalid entry: [2 http://x:1 io TCPROS /scan true]")
    ∧ (GetNodeConns exEnv exNode "/nav").val = none
    ∧ (GetNodeConns exEnv exNode "/nav").err
        = some (invalidEntry
            [.int 2, .str "http://x:1", .str "io", .str "TCPROS", .str "/scan", .bool true])
    ∧ invalidEntry [.int 2, .str "http://x:1", .str "io", .str "TCPROS", .str "/scan", .bool true]
        = "invalid entry: " ++ ("[" ++ " ".intercalate
            ([Value.int 2, .str "http://x:1", .str "io", .str "TCPROS", .str "/scan",
              .bool true].map fmtValue) ++ "]") :=
  ⟨⟨rfl, rfl, rfl, by decide, by decide⟩,
    GetNodeConns_error exEnv exNode "/nav" "http://b:2" "b:2"
      [[.int 1, .str "http://x:1", .str "o", .str "TCPROS", .str "/tf", .bool true]]
      [.int 2, .str "http://x:1", .str "io", .str "TCPROS", .str "/scan", .bool true] []
      rfl rfl rfl (by decide) (by decide)⟩

theorem length_goBytes_singleton (ch : Char) :
    (goBytes (String.singleton ch)).length = ch.utf8Size := by
  have h : String.singleton ch = ⟨[ch]⟩ := rfl
  rw [h, length_goBytes_cons]
  simp [goBytes]

/-- C19: the length of the direction is counted in bytes: a tuple whose field 2 is a
string of one character that UTF-8 encodes in more than one byte is rejected as an
invalid entry, though its other fields are well-formed; and when a tuple is accepted,
field 2 is a string of exactly one byte, which is `Direction`. -/
theorem GetNodeConns_direction_bytes :
    (∀ (id : Int) (peer tr tp : String) (c : Bool) (rest : List Value) (ch : Char),
        1 < ch.utf8Size →
        malformed (.int id :: .str peer :: .str (String.singleton ch) :: .str tr :: .str tp
            :: .bool c :: rest)
        ∧ connOfEntry (.int id :: .str peer :: .str (String.singleton ch) :: .str tr
            :: .str tp :: .bool c :: rest)
          = .error (invalidEntry (.int id :: .str peer :: .str (String.singleton ch) :: .str tr
              :: .str tp :: .bool c :: rest)))
    ∧ (∀ (i : List Value) (conn : InfoConnection), connOfEntry i = .ok conn →
        ∃ d, i[2]? = some (.str d) ∧ goBytes d = [conn.Direction]) := by
  constructor
  · intro id peer tr tp c rest ch hch
    have hmal : malformed (.int id :: .str peer :: .str (String.singleton ch) :: .str tr
        :: .str tp :: .bool c :: rest) := by
      by_contra hn
      obtain ⟨id2, peer2, d, tr2, tp2, c2, rest2, heq, hd⟩ := (not_malformed_iff _).1 hn
      simp only [List.cons.injEq, Value.str.injEq] at heq
      obtain ⟨_, _, hd2, _⟩ := heq
      rw [← hd2, length_goBytes_singleton] at hd
      omega
    exact ⟨hmal, (connOfEntry_error_iff _).2 hmal⟩
  · intro i conn hconn
    obtain ⟨id, peer, d, tr, tp, c, rest, heq, hd⟩ :=
      (not_malformed_iff i).1 (connOfEntry_ok_not_malformed i conn hconn)
    subst heq
    rw [connOfEntry_fields id peer d tr tp c rest hd] at hconn
    simp only [Except.ok.injEq] at hconn
    subst hconn
    refine ⟨d, rfl, ?_⟩
    obtain ⟨ch, _, _, hb⟩ := goBytes_length_one d hd
    rw [hb]
    rfl

/-- C19, at the direction `é`, one character of two bytes, and at the tuple of the
specification, whose direction `i` is the byte 105. -/
theorem GetNodeConns_direction_bytes_witness :
    (1 < 'é'.utf8Size
      ∧ connOfEntry [.int 3, .str "http://x:1", .str "i", .str "TCPROS", .str "/scan",
            .bool true]
          = .ok ⟨3, "http://x:1", 105, "TCPROS", "/scan", true⟩)
    ∧ (malformed (.int 3 :: .str "http://x:1" :: .str (String.singleton 'é') :: .str "TCPROS"
          :: .str "/scan" :: .bool true :: [])
      ∧ connOfEntry (.int 3 :: .str "http://x:1" :: .str (String.singleton 'é') :: .str "TCPROS"
            :: .str "/scan" :: .bool true :: [])
          = .error (invalidEntry (.int 3 :: .str "http://x:1" :: .str (String.singleton 'é')
              :: .str "TCPROS" :: .str "/scan" :: .bool true :: [])))
    ∧ ∃ d, [Value.int 3, .str "http://x:1", .str "i", .str "TCPROS", .str "/scan",
          .bool true][2]? = some (.str d)
        ∧ goBytes d = [(⟨3, "http://x:1", 105, "TCPROS", "/scan", true⟩ : InfoConnection).Direction] :=
  ⟨⟨by decide, by decide⟩,
    GetNodeConns_direction_bytes.1 3 "http://x:1" "TCPROS" "/scan" true [] 'é' (by decide),
    GetNodeConns_direction_bytes.2 _ _ (by decide)⟩

/-! ## GetTopics: a topic name listed more than once -/

theorem declaredType_append_last (pre : List TopicType) (t : TopicType) (post : List TopicType)
    (hlast : ∀ u ∈ post, u.Name ≠ t.Name) :
    declaredType (pre ++ t :: post) t.Name = some t.Typ := by
  have hpost : declaredType post t.Name = none := by
    cases h : declaredType post t.Name with
    | none => rfl
    | some typ =>
      obtain ⟨u, hu, hname, _⟩ := declaredType_mem post t.Name typ h
      exact absurd hname (hlast u hu)
  have htail : declaredType (t :: post) t.Name = some t.Typ := by
    simp [declaredType, hpost]
  induction pre with
  | nil => exact htail
  | cons p pre ih =>
    rw [List.cons_append]
    simp only [declaredType, ih]

/-- C20: when the type snapshot lists the name of `t` more than once and `t` is the last
entry of this name, `GetTopics` returns a map in which this name is a key once; the
`Type` of its record is the type of `t`, and its `Publishers` and `Subscribers` are
exactly the nodes of the entries of the state with this name, none being lost. -/
theorem GetTopics_repeated (n : Node) (st : SystemState) (pre : List TopicType)
    (t : TopicType) (post : List TopicType)
    (hst : n.apiMasterClient.GetSystemState = .ok st)
    (hty : n.apiMasterClient.GetTopicTypes = .ok (pre ++ t :: post))
    (hlast : ∀ u ∈ post, u.Name ≠ t.Name) :
    ∃ ret info, (GetTopics n).val = some ret ∧ (GetTopics n).err = none
      ∧ (mapKeys ret).count t.Name = 1
      ∧ mapGet ret t.Name = some info
      ∧ info.Typ = t.Typ
      ∧ (∀ x, x ∈ info.Publishers ↔ ∃ e ∈ st.PublishedTopics, e.Name = t.Name ∧ x ∈ e.Nodes)
      ∧ (∀ x, x ∈ info.Subscribers ↔
          ∃ e ∈ st.SubscribedTopics, e.Name = t.Name ∧ x ∈ e.Nodes) := by
  have hd := declaredType_append_last pre t post hlast
  have hget : mapGet (topicsSubscribed st.SubscribedTopics
      (topicsPublished st.PublishedTopics (topicsSeed (pre ++ t :: post) []))) t.Name
      = some { Typ := t.Typ, Publishers := addNodesOf st.PublishedTopics t.Name [],
               Subscribers := addNodesOf st.SubscribedTopics t.Name [] } := by
    rw [mapGet_topicsSubscribed, mapGet_topicsPublished, mapGet_topicsSeed, hd]
    rfl
  have hnodup : (mapKeys (topicsSubscribed st.SubscribedTopics
      (topicsPublished st.PublishedTopics (topicsSeed (pre ++ t :: post) [])))).Nodup := by
    rw [mapKeys_topicsSubscribed, mapKeys_topicsPublished]
    exact nodup_mapKeys_topicsSeed _ [] (by simp [mapKeys])
  refine ⟨_, _, by simp only [GetTopics, hst, hty], by simp only [GetTopics, hst, hty], ?_,
    hget, rfl, ?_, ?_⟩
  · exact List.count_eq_one_of_mem hnodup ((mapGet_isSome_iff _ _).1 ⟨_, hget⟩)
  · intro x
    rw [mem_addNodesOf]
    simp
  · intro x
    rw [mem_addNodesOf]
    simp

/-- C20, at the type snapshot `exTypesDup`, which declares `/scan` as `std_msgs/String`
and later as `sensor_msgs/LaserScan`. -/
theorem GetTopics_repeated_witness :
    (exNodeTypesDup.apiMasterClient.GetSystemState = .ok exState
      ∧ exNodeTypesDup.apiMasterClient.GetTopicTypes
          = .ok ([⟨"/scan", "std_msgs/String"⟩, ⟨"/tf", "tf/tfMessage"⟩]
              ++ ⟨"/scan", "sensor_msgs/LaserScan"⟩ :: [])
      ∧ (GetTopics exNodeTypesDup).val
          = some [("/scan", ⟨"sensor_msgs/LaserScan", ["/lidar"], ["/nav", "/lidar"]⟩),
              ("/tf", ⟨"tf/tfMessage", ["/nav"], []⟩)])
    ∧ ∃ ret info, (GetTopics exNodeTypesDup).val = some ret
      ∧ (GetTopics exNodeTypesDup).err = none
      ∧ (mapKeys ret).count "/scan" = 1
      ∧ mapGet ret "/scan" = some info
      ∧ info.Typ = "sensor_msgs/LaserScan"
      ∧ (∀ x, x ∈ info.Publishers ↔
          ∃ e ∈ exState.PublishedTopics, e.Name = "/scan" ∧ x ∈ e.Nodes)
      ∧ (∀ x, x ∈ info.Subscribers ↔
          ∃ e ∈ exState.SubscribedTopics, e.Name = "/scan" ∧ x ∈ e.Nodes) :=
  ⟨⟨rfl, rfl, by decide⟩,
    GetTopics_repeated exNodeTypesDup exState
      [⟨"/scan", "std_msgs/String"⟩, ⟨"/tf", "tf/tfMessage"⟩]
      ⟨"/scan", "sensor_msgs/LaserScan"⟩ [] rfl rfl (by decide)⟩

end Goroslib
